import Mathlib

/-!
Verification of the VHDL scope/definitions resolver of the moore compiler
(`src/vhdl/score/scope.rs`) together with the HIR data model (`src/vhdl/hir.rs`).

The embedding mirrors the Rust source:
* typed identifier kinds become `Nat`-indexed wrapper structures;
* `HashMap<ResolvableName, Vec<Spanned<Def>>>` becomes an insertion-ordered
  association list (`Defs`), with `defsExtend` modelling
  `entry(..).or_insert_with(Vec::new).push/extend` and `defsInsert` modelling
  `HashMap::insert` (which returns the previous entry);
* `Result<T, ()>` together with the possibility of `unreachable!()` /
  `unimplemented!()` panics becomes the `Outcome` type, where `Outcome.fatal`
  marks a panic;
* the diagnostic sink becomes an accumulated list of `Diag` records; messages
  are kept structurally (message formatting is outside this core per the spec);
* external collaborators (the AST accessor, the HIR queries of the scoreboard,
  the library-name registry, the builtin-package tables, and the compound-name
  resolver `resolve_compound_name`, all of which live outside the sources
  covered here) are fields of the explicit context `Ctx` passed to every
  function, mirroring `ScoreContext`.
-/

/-- A source span, modelling `moore_common::source::Span`. -/
structure Span where
  lo : Nat
  hi : Nat
deriving DecidableEq, Repr

/-- A point span at a given offset, modelling `Location::into::<Span>`. -/
def Span.pt (p : Nat) : Span := ⟨p, p⟩

/-- `Span::union`, the smallest span covering both arguments. -/
def Span.union (a b : Span) : Span := ⟨min a.lo b.lo, max a.hi b.hi⟩

/-- A value tagged with a source span, modelling `Spanned<T>`. -/
structure Spanned (α : Type) where
  value : α
  span : Span
deriving DecidableEq, Repr

/-- Interned names, modelled as strings. -/
abbrev Name := String

/-- Identifier of a library node. -/
structure LibRef where
  idx : Nat
deriving DecidableEq, Repr

/-- Identifier of an entity node. -/
structure EntityRef where
  idx : Nat
deriving DecidableEq, Repr

/-- Identifier of a configuration node. -/
structure CfgRef where
  idx : Nat
deriving DecidableEq, Repr

/-- Identifier of a package declaration node. -/
structure PkgDeclRef where
  idx : Nat
deriving DecidableEq, Repr

/-- Identifier of a package instantiation node. -/
structure PkgInstRef where
  idx : Nat
deriving DecidableEq, Repr

/-- Identifier of a context declaration node. -/
structure CtxRef where
  idx : Nat
deriving DecidableEq, Repr

/-- Identifier of an architecture node. -/
structure ArchRef where
  idx : Nat
deriving DecidableEq, Repr

/-- Identifier of a package body node. -/
structure PkgBodyRef where
  idx : Nat
deriving DecidableEq, Repr

/-- Identifier of the context items preceding a design unit. -/
structure CtxItemsRef where
  idx : Nat
deriving DecidableEq, Repr

/-- Identifier of a type declaration node. -/
structure TypeDeclRef where
  idx : Nat
deriving DecidableEq, Repr

/-- Identifier of a subtype declaration node. -/
structure SubtypeDeclRef where
  idx : Nat
deriving DecidableEq, Repr

/-- Identifier of a builtin package. -/
structure BuiltinPkgRef where
  idx : Nat
deriving DecidableEq, Repr

/-- Identifier of an expression node. -/
structure ExprRef where
  idx : Nat
deriving DecidableEq, Repr

/-- Identifier of a generic declaration. -/
structure GenericRef where
  idx : Nat
deriving DecidableEq, Repr

/-- Identifier of an interface signal. -/
structure IntfSignalRef where
  idx : Nat
deriving DecidableEq, Repr

/-- Identifier of a declaration inside a block. -/
structure DeclInBlockRef where
  idx : Nat
deriving DecidableEq, Repr

/-- Identifier of a concurrent statement. -/
structure ConcStmtRef where
  idx : Nat
deriving DecidableEq, Repr

/-- Identifier of one literal of an enumeration type: the type declaration and
the position of the literal, modelling `EnumRef(id, i)`. -/
structure EnumRef where
  ty : TypeDeclRef
  idx : Nat
deriving DecidableEq, Repr

/-- The tagged union over scope-introducing identifier kinds (`ScopeRef`). -/
inductive ScopeRef where
  | Lib (id : LibRef)
  | CtxItems (id : CtxItemsRef)
  | Entity (id : EntityRef)
  | BuiltinPkg (id : BuiltinPkgRef)
  | Pkg (id : PkgDeclRef)
  | PkgInst (id : PkgInstRef)
  | Arch (id : ArchRef)
deriving DecidableEq, Repr

/-- The tagged union over definition kinds (`Def`). The Rust variant `Type`
is called `Ty` here because `Type` is reserved in Lean. -/
inductive Def where
  | Lib (id : LibRef)
  | Entity (id : EntityRef)
  | Cfg (id : CfgRef)
  | Pkg (id : PkgDeclRef)
  | PkgInst (id : PkgInstRef)
  | Ctx (id : CtxRef)
  | Ty (id : TypeDeclRef)
  | Subtype (id : SubtypeDeclRef)
  | Enum (id : EnumRef)
deriving DecidableEq, Repr

/-- A name that a definition may be registered under (`ResolvableName`):
either an identifier or a character literal (for enumeration literals). -/
inductive ResName where
  | ident (n : Name)
  | bit (c : Char)
deriving DecidableEq, Repr

/-- The structured content of a diagnostic record. The core hands structured
records to the sink; message formatting/printing is an external concern, so
messages are kept as structured data rather than formatted strings. -/
inductive DiagMsg where
  | declaredMultipleTimes (n : ResName)
  | alreadyBeenDeclared (n : ResName)
  | noLibraryNamed (n : Name)
  | allNotPossibleOn (sourceText : Span)
  | invalidNameSuffix
deriving DecidableEq, Repr

/-- A diagnostic record: an error message plus the source spans attached to it
via `DiagBuilder2::span`. -/
structure Diag where
  msg : DiagMsg
  spans : List Span
deriving DecidableEq, Repr

/-- A definitions table (`Defs`): `HashMap<ResolvableName, Vec<Spanned<Def>>>`,
modelled as an insertion-ordered association list. -/
abbrev Defs := List (ResName × List (Spanned Def))

/-- A lexical scope (`Scope`): optional parent, list of identifiers whose
definition tables are visible, and explicitly imported definitions. -/
structure Scope where
  parent : Option ScopeRef
  defs : List ScopeRef
  explicit_defs : List (ResName × List (Spanned Def))
deriving DecidableEq, Repr

/-- The result of one resolver computation: `Ok`, `Err(())` (the reason was
already reported to the diagnostic sink), or a process abort
(`unreachable!()` / `unimplemented!()`). -/
inductive Outcome (α : Type) where
  | ok (a : α)
  | failed
  | fatal (msg : String)
deriving DecidableEq, Repr

/-- Whether an outcome is a panic. -/
def Outcome.isFatal {α : Type} : Outcome α → Bool
  | .fatal _ => true
  | _ => false

/-- Association-list lookup keyed on the first component. -/
def alookup {κ ν : Type} [DecidableEq κ] (k : κ) : List (κ × ν) → Option ν
  | [] => none
  | (k0, v) :: rest => if k = k0 then some v else alookup k rest

/-- The list of definitions recorded under a name (empty when absent). -/
def entryGet (m : Defs) (n : ResName) : List (Spanned Def) :=
  (alookup n m).getD []

/-- `entry(n).or_insert_with(Vec::new).extend(ds)`: append to the entry of
`n`, creating it when absent. -/
def defsExtend (m : Defs) (n : ResName) (ds : List (Spanned Def)) : Defs :=
  match m with
  | [] => [(n, ds)]
  | (n0, v) :: rest =>
    if n = n0 then (n0, v ++ ds) :: rest else (n0, v) :: defsExtend rest n ds

/-- `entry(n).or_insert_with(Vec::new).push(d)`. -/
def defsPush (m : Defs) (n : ResName) (d : Spanned Def) : Defs :=
  defsExtend m n [d]

/-- `HashMap::insert`, which replaces the entry of `n` and returns the
previous entry when there was one. -/
def defsInsert (m : Defs) (n : ResName) (v : List (Spanned Def)) :
    Defs × Option (List (Spanned Def)) :=
  match m with
  | [] => ([(n, v)], none)
  | (n0, ds) :: rest =>
    if n = n0 then ((n0, v) :: rest, some ds)
    else
      let r := defsInsert rest n v
      ((n0, ds) :: r.1, r.2)

/-- HIR of a library (`hir::Lib`): the design units it directly contains. -/
structure Lib where
  entities : List EntityRef
  cfgs : List CfgRef
  pkg_decls : List PkgDeclRef
  pkg_insts : List PkgInstRef
  ctxs : List CtxRef
  archs : List ArchRef
  pkg_bodies : List PkgBodyRef
deriving DecidableEq, Repr

/-- HIR of an entity (`hir::Entity`). -/
structure Entity where
  ctx_items : CtxItemsRef
  lib : LibRef
  name : Spanned Name
  generics : List GenericRef
  ports : List IntfSignalRef
deriving DecidableEq, Repr

/-- HIR of an architecture (`hir::Arch`). -/
structure Arch where
  ctx_items : CtxItemsRef
  entity : EntityRef
  name : Spanned Name
  decls : List DeclInBlockRef
  stmts : List ConcStmtRef
deriving DecidableEq, Repr

/-- Range direction (`ast::Dir`). -/
inductive Dir where
  | To
  | Downto
deriving DecidableEq, Repr

/-- One literal of an enumeration type (`hir::EnumLit`). -/
inductive EnumLit where
  | Ident (n : Spanned Name)
  | Char (c : Spanned Char)
deriving DecidableEq, Repr

/-- The data of a type declaration (`hir::TypeData`). -/
inductive TypeData where
  | Range (sp : Span) (dir : Dir) (lo hi : ExprRef)
  | Enum (sp : Span) (lits : List EnumLit)
deriving DecidableEq, Repr

/-- HIR of a type declaration (`hir::TypeDecl`). -/
structure TypeDecl where
  parent : ScopeRef
  name : Spanned Name
  data : Option TypeData
deriving DecidableEq, Repr

/-- A declaration inside a package declaration (`DeclInPkgRef`). The Rust
variant `Type` is called `Ty` here because `Type` is reserved in Lean. -/
inductive DeclInPkgRef where
  | Pkg (id : PkgDeclRef)
  | PkgInst (id : PkgInstRef)
  | Ty (id : TypeDeclRef)
  | Subtype (id : SubtypeDeclRef)
deriving DecidableEq, Repr

/-- HIR of a package declaration (`hir::Package`). -/
structure Package where
  parent : ScopeRef
  name : Spanned Name
  generics : List GenericRef
  decls : List DeclInPkgRef
deriving DecidableEq, Repr

/-- A part of a compound name that may remain unconsumed after prefix
resolution (`ast::NamePart`); only `SelectAll` is inspected by this core. -/
inductive NamePart where
  | SelectAll (sp : Span)
  | Select (n : Spanned ResName)
deriving DecidableEq, Repr

/-- A compound (dotted) name occurring in a use clause. Its internal
structure is consumed by the external resolver, so only an opaque handle and
the overall span are kept. -/
structure CompoundName where
  id : Nat
  span : Span
deriving DecidableEq, Repr

/-- A context item preceding a design unit (`ast::CtxItem`): a library clause
with its list of identifiers, or a use clause with its list of names. -/
inductive CtxItem where
  | LibClause (names : Spanned (List (Spanned Name)))
  | UseClause (names : Spanned (List CompoundName))
deriving DecidableEq, Repr

/-- The explicit context each resolver function receives, modelling
`ScoreContext`: the AST accessor, the HIR queries, the library-name registry,
the builtin-package tables, and the external compound-name resolver
`resolve_compound_name` (whose implementation lives outside the sources
covered here). -/
structure Ctx where
  ast_entity_name : EntityRef → Spanned Name
  ast_cfg_name : CfgRef → Spanned Name
  ast_pkg_decl_name : PkgDeclRef → Spanned Name
  ast_pkg_inst_name : PkgInstRef → Spanned Name
  ast_ctx_name : CtxRef → Spanned Name
  ast_subtype_name : SubtypeDeclRef → Spanned Name
  ast_ctx_items : CtxItemsRef → List CtxItem
  hir_lib : LibRef → Except Unit Lib
  hir_entity : EntityRef → Except Unit Entity
  hir_arch : ArchRef → Except Unit Arch
  hir_pkg : PkgDeclRef → Except Unit Package
  hir_type : TypeDeclRef → Except Unit TypeDecl
  lib_names : Name → Option LibRef
  builtin_pkg_defs : BuiltinPkgRef → Defs
  builtin_pkg_scopes : BuiltinPkgRef → Scope
  resolve_compound_name : CompoundName → ScopeRef → Bool →
    Except Unit (ResName × List (Spanned Def) × Span × List NamePart)
  trace_scoreboard : Bool

/-- The name/definition pairs contributed by the design units a library
directly contains, in the order the uber-iterator of `impl_make_defs!(LibRef)`
produces them: entities, configurations, package declarations, package
instances, contexts. Architectures and package bodies are not iterated. -/
def libContribs (c : Ctx) (lib : Lib) : List (Spanned Name × Def) :=
  lib.entities.map (fun n => (c.ast_entity_name n, Def.Entity n))
  ++ lib.cfgs.map (fun n => (c.ast_cfg_name n, Def.Cfg n))
  ++ lib.pkg_decls.map (fun n => (c.ast_pkg_decl_name n, Def.Pkg n))
  ++ lib.pkg_insts.map (fun n => (c.ast_pkg_inst_name n, Def.PkgInst n))
  ++ lib.ctxs.map (fun n => (c.ast_ctx_name n, Def.Ctx n))

/-- Fold the contributed pairs into the definitions map:
`defs.entry(name.value.into()).or_insert_with(Vec::new).push(..)`. -/
def buildLibDefs (l : List (Spanned Name × Def)) : Defs :=
  l.foldl (fun m p => defsPush m (ResName.ident p.1.value) ⟨p.2, p.1.span⟩) []

/-- One error per name declared more than once, citing every conflicting
span (`DiagBuilder2::error(..)` with one `.span(..)` per definition). -/
def libDupDiags (m : Defs) : List Diag :=
  (m.filter (fun e => 1 < e.2.length)).map
    (fun e => ⟨DiagMsg.declaredMultipleTimes e.1, e.2.map Spanned.span⟩)

/-- The body of `impl_make_defs!(LibRef)` after the library HIR is fetched:
assemble the definitions, report duplicates, fail if there were any. -/
def make_defs_lib_from (c : Ctx) (lib : Lib) : Outcome Defs × List Diag :=
  let m := buildLibDefs (libContribs c lib)
  let dd := libDupDiags m
  if dd.isEmpty then (.ok m, dd) else (.failed, dd)

/-- `impl_make_defs!(LibRef)`: definitions in a library. -/
def make_defs_lib (c : Ctx) (id : LibRef) : Outcome Defs × List Diag :=
  match c.hir_lib id with
  | .error _ => (.failed, [])
  | .ok lib => make_defs_lib_from c lib

/-- State of the loop of `impl_make_defs!(CtxItemsRef)`. -/
structure CtxDefsState where
  defs : Defs
  has_fails : Bool
  diags : List Diag
deriving Repr

/-- Processing of one identifier of a library clause: look the name up in the
library-name registry; bind it when the entry is still empty, otherwise (or
when no library of that name exists) emit an error and record the failure. -/
def ctxLibIdentStep (c : Ctx) (st : CtxDefsState) (ident : Spanned Name) :
    CtxDefsState :=
  match c.lib_names ident.value with
  | some lib_id =>
    if (entryGet st.defs (ResName.ident ident.value)).isEmpty then
      { st with defs := defsPush st.defs (ResName.ident ident.value)
                          ⟨Def.Lib lib_id, ident.span⟩ }
    else
      { st with has_fails := true,
                diags := st.diags ++
                  [⟨DiagMsg.alreadyBeenDeclared (ResName.ident ident.value),
                    [ident.span]⟩] }
  | none =>
    { st with has_fails := true,
              diags := st.diags ++
                [⟨DiagMsg.noLibraryNamed ident.value, [ident.span]⟩] }

/-- Processing of one context item: library clauses bind their names, every
other item is skipped by this query. -/
def ctxItemStep (c : Ctx) (st : CtxDefsState) (item : CtxItem) : CtxDefsState :=
  match item with
  | CtxItem.LibClause names => names.value.foldl (ctxLibIdentStep c) st
  | _ => st

/-- `impl_make_defs!(CtxItemsRef)`: definitions made by the context items
that appear before a design unit. -/
def make_defs_ctx_items (c : Ctx) (id : CtxItemsRef) : Outcome Defs × List Diag :=
  let st := (c.ast_ctx_items id).foldl (ctxItemStep c) ⟨[], false, []⟩
  if st.has_fails then (.failed, st.diags) else (.ok st.defs, st.diags)

/-- `impl_make_defs!(EntityRef)`: returns an empty table (`TODO` in source). -/
def make_defs_entity (_c : Ctx) (_id : EntityRef) : Outcome Defs × List Diag :=
  (.ok [], [])

/-- `impl_make_defs!(ArchRef)`: returns an empty table (`TODO` in source). -/
def make_defs_arch (_c : Ctx) (_id : ArchRef) : Outcome Defs × List Diag :=
  (.ok [], [])

/-- The name/definition pair contributed by one enumeration literal at
position `i` of type declaration `t`. -/
def enumLitEntry (t : TypeDeclRef) (p : Nat × EnumLit) : Spanned ResName × Def :=
  match p.2 with
  | EnumLit.Ident n => (⟨ResName.ident n.value, n.span⟩, Def.Enum ⟨t, p.1⟩)
  | EnumLit.Char ch => (⟨ResName.bit ch.value, ch.span⟩, Def.Enum ⟨t, p.1⟩)

/-- The pairs contributed by a type declaration: its own name and, when it is
an enumeration, one entry per literal. -/
def typeDeclEntries (t : TypeDeclRef) (hir : TypeDecl) :
    List (Spanned ResName × Def) :=
  (⟨ResName.ident hir.name.value, hir.name.span⟩, Def.Ty t) ::
  (match hir.data with
   | some (TypeData.Enum _ lits) => lits.enum.map (enumLitEntry t)
   | _ => [])

/-- The `names_and_defs` computed for one declaration in a package; fetching
the HIR of a type declaration may fail and propagates. -/
def declNamesAndDefs (c : Ctx) (decl : DeclInPkgRef) :
    Except Unit (List (Spanned ResName × Def)) :=
  match decl with
  | DeclInPkgRef.Pkg id =>
    .ok [(⟨ResName.ident (c.ast_pkg_decl_name id).value,
           (c.ast_pkg_decl_name id).span⟩, Def.Pkg id)]
  | DeclInPkgRef.PkgInst id =>
    .ok [(⟨ResName.ident (c.ast_pkg_inst_name id).value,
           (c.ast_pkg_inst_name id).span⟩, Def.PkgInst id)]
  | DeclInPkgRef.Ty id =>
    match c.hir_type id with
    | .error e => .error e
    | .ok hir => .ok (typeDeclEntries id hir)
  | DeclInPkgRef.Subtype id =>
    .ok [(⟨ResName.ident (c.ast_subtype_name id).value,
           (c.ast_subtype_name id).span⟩, Def.Subtype id)]

/-- State of the loop of `impl_make_defs!(PkgDeclRef)`. -/
structure PkgDefsState where
  defs : Defs
  had_fails : Bool
  diags : List Diag
deriving Repr

/-- Registration of one name/definition pair in a package declaration:
enumeration literals are overloadable and appended; every other kind replaces
the entry and reports an error when one already existed (citing the new span
and the span of the last previous declaration). -/
def pkgDefStep (st : PkgDefsState) (p : Spanned ResName × Def) : PkgDefsState :=
  match p.2 with
  | Def.Enum _ => { st with defs := defsPush st.defs p.1.value ⟨p.2, p.1.span⟩ }
  | _ =>
    let r := defsInsert st.defs p.1.value [⟨p.2, p.1.span⟩]
    match r.2 with
    | some existing =>
      { defs := r.1, had_fails := true,
        diags := st.diags ++
          [⟨DiagMsg.alreadyBeenDeclared p.1.value,
            p.1.span :: (existing.getLast?.map Spanned.span).toList⟩] }
    | none => { st with defs := r.1 }

/-- The loop over the declarations of a package; on a failing HIR fetch the
diagnostics emitted so far remain with the sink. -/
def pkgDeclsLoop (c : Ctx) : List DeclInPkgRef → PkgDefsState →
    Except (List Diag) PkgDefsState
  | [], st => .ok st
  | d :: rest, st =>
    match declNamesAndDefs c d with
    | .error _ => .error st.diags
    | .ok pairs => pkgDeclsLoop c rest (pairs.foldl pkgDefStep st)

/-- `impl_make_defs!(PkgDeclRef)`: definitions in a package declaration. -/
def make_defs_pkg (c : Ctx) (id : PkgDeclRef) : Outcome Defs × List Diag :=
  match c.hir_pkg id with
  | .error _ => (.failed, [])
  | .ok hir =>
    match pkgDeclsLoop c hir.decls ⟨[], false, []⟩ with
    | .error dgs => (.failed, dgs)
    | .ok st =>
      if st.had_fails then (.failed, st.diags) else (.ok st.defs, st.diags)

/-- `impl_make_defs!(ScopeRef)`: dispatch on the identifier kind tag. The
package-instance case is `unimplemented!()` in the source. -/
def make_defs (c : Ctx) (id : ScopeRef) : Outcome Defs × List Diag :=
  match id with
  | ScopeRef.Lib i => make_defs_lib c i
  | ScopeRef.CtxItems i => make_defs_ctx_items c i
  | ScopeRef.Entity i => make_defs_entity c i
  | ScopeRef.BuiltinPkg i => (.ok (c.builtin_pkg_defs i), [])
  | ScopeRef.Pkg i => make_defs_pkg c i
  | ScopeRef.PkgInst _ => (.fatal "not implemented", [])
  | ScopeRef.Arch i => make_defs_arch c i

/-- A table of materialized scopes keyed by scope reference
(`sb.scope_table`). -/
abbrev ScopeTable := List (ScopeRef × Scope)

/-- State of the loop of `make_ctx_items_scope`. -/
structure CtxScopeState where
  defs : List ScopeRef
  explicit_defs : List (ResName × List (Spanned Def))
  diags : List Diag
deriving Repr

/-- Result of a loop step: success, a propagated failure, or a panic; the
state is kept in every case because emitted diagnostics stay with the sink. -/
inductive LoopOut (σ : Type) where
  | ok (s : σ)
  | failed (s : σ)
  | fatal (msg : String) (s : σ)

/-- `entry(res_name).or_insert_with(Vec::new).extend(out_defs)` on the
explicit-imports map of a scope under construction. -/
def explicitExtend (m : List (ResName × List (Spanned Def))) (n : ResName)
    (ds : List (Spanned Def)) : List (ResName × List (Spanned Def)) :=
  defsExtend m n ds

/-- Processing of one name of a use clause in `make_ctx_items_scope`:
resolve the compound name, then either consume a trailing `all` (which must
select a package; anything else is an error that is emitted and skipped) or
record the resolved definitions as explicit imports; any remaining unconsumed
suffix is an invalid-name-suffix error that is emitted and skipped. -/
def useNameStep (c : Ctx) (id : CtxItemsRef) (st : CtxScopeState)
    (name : CompoundName) : LoopOut CtxScopeState :=
  match c.resolve_compound_name name (ScopeRef.CtxItems id) true with
  | .error _ => .failed st
  | .ok (res_name, out_defs, valid_span, tail) =>
    match tail.head? with
    | some (NamePart.SelectAll all_span) =>
      let tail2 := tail.tail
      match out_defs.getLast? with
      | some ⟨Def.Pkg pid, _⟩ =>
        let st2 := { st with defs := st.defs ++ [ScopeRef.Pkg pid] }
        if 0 < tail2.length then
          .ok { st2 with diags := st2.diags ++
            [⟨DiagMsg.invalidNameSuffix,
              [Span.union (Span.pt valid_span.hi) (Span.pt name.span.hi)]⟩] }
        else .ok st2
      | some _ =>
        .ok { st with diags := st.diags ++
          [⟨DiagMsg.allNotPossibleOn valid_span, [all_span]⟩] }
      | none => .fatal "internal error: entered unreachable code" st
    | _ =>
      let st2 := { st with
        explicit_defs := explicitExtend st.explicit_defs res_name out_defs }
      if 0 < tail.length then
        .ok { st2 with diags := st2.diags ++
          [⟨DiagMsg.invalidNameSuffix,
            [Span.union (Span.pt valid_span.hi) (Span.pt name.span.hi)]⟩] }
      else .ok st2

/-- The loop over the names of one use clause. -/
def useNamesLoop (c : Ctx) (id : CtxItemsRef) : List CompoundName →
    CtxScopeState → LoopOut CtxScopeState
  | [], st => .ok st
  | n :: rest, st =>
    match useNameStep c id st n with
    | .ok st2 => useNamesLoop c id rest st2
    | other => other

/-- The loop over the context items in `make_ctx_items_scope`; only use
clauses are inspected. -/
def ctxScopeItemsLoop (c : Ctx) (id : CtxItemsRef) : List CtxItem →
    CtxScopeState → LoopOut CtxScopeState
  | [], st => .ok st
  | CtxItem.UseClause names :: rest, st =>
    match useNamesLoop c id names.value st with
    | .ok st2 => ctxScopeItemsLoop c id rest st2
    | other => other
  | _ :: rest, st => ctxScopeItemsLoop c id rest st

/-- `ScoreContext::make_ctx_items_scope`: build the scope of the context
items preceding a design unit, record it in the scope table under the
context-items reference, and return that reference. -/
def make_ctx_items_scope (c : Ctx) (id : CtxItemsRef) (parent : Option ScopeRef)
    (tbl : ScopeTable) : Outcome CtxItemsRef × ScopeTable × List Diag :=
  match ctxScopeItemsLoop c id (c.ast_ctx_items id)
      ⟨[ScopeRef.CtxItems id], [], []⟩ with
  | .ok st =>
    (.ok id,
     (ScopeRef.CtxItems id,
      { parent := parent, defs := st.defs, explicit_defs := st.explicit_defs })
       :: tbl,
     st.diags)
  | .failed st => (.failed, tbl, st.diags)
  | .fatal m st => (.fatal m, tbl, st.diags)

/-- `impl_make_scope!(LibRef)`: a library scope has no parent and makes only
itself visible. -/
def make_scope_lib (id : LibRef) : Outcome Scope :=
  .ok { parent := none, defs := [ScopeRef.Lib id], explicit_defs := [] }

/-- `impl_make_scope!(EntityRef)`: the scope of an entity chains to the scope
of its context items, which itself has no parent. -/
def make_scope_entity (c : Ctx) (id : EntityRef) (tbl : ScopeTable) :
    Outcome Scope × ScopeTable × List Diag :=
  match c.hir_entity id with
  | .error _ => (.failed, tbl, [])
  | .ok hir =>
    match make_ctx_items_scope c hir.ctx_items none tbl with
    | (.ok parent, tbl2, dgs) =>
      (.ok { parent := some (ScopeRef.CtxItems parent),
             defs := [ScopeRef.Entity id], explicit_defs := [] }, tbl2, dgs)
    | (.failed, tbl2, dgs) => (.failed, tbl2, dgs)
    | (.fatal m, tbl2, dgs) => (.fatal m, tbl2, dgs)

/-- `impl_make_scope!(ArchRef)`: the scope of an architecture chains to the
scope of its context items, which itself chains to the architecture's
entity. -/
def make_scope_arch (c : Ctx) (id : ArchRef) (tbl : ScopeTable) :
    Outcome Scope × ScopeTable × List Diag :=
  match c.hir_arch id with
  | .error _ => (.failed, tbl, [])
  | .ok hir =>
    match make_ctx_items_scope c hir.ctx_items
        (some (ScopeRef.Entity hir.entity)) tbl with
    | (.ok parent, tbl2, dgs) =>
      (.ok { parent := some (ScopeRef.CtxItems parent),
             defs := [ScopeRef.Arch id], explicit_defs := [] }, tbl2, dgs)
    | (.failed, tbl2, dgs) => (.failed, tbl2, dgs)
    | (.fatal m, tbl2, dgs) => (.fatal m, tbl2, dgs)

/-- `impl_make_scope!(PkgDeclRef)`: the scope of a package declaration chains
to its lexical parent, which is resolved first when it is a pending
context-items scope. -/
def make_scope_pkg (c : Ctx) (id : PkgDeclRef) (tbl : ScopeTable) :
    Outcome Scope × ScopeTable × List Diag :=
  match c.hir_pkg id with
  | .error _ => (.failed, tbl, [])
  | .ok hir =>
    match hir.parent with
    | ScopeRef.CtxItems cid =>
      match make_ctx_items_scope c cid none tbl with
      | (.ok r, tbl2, dgs) =>
        (.ok { parent := some (ScopeRef.CtxItems r),
               defs := [ScopeRef.Pkg id], explicit_defs := [] }, tbl2, dgs)
      | (.failed, tbl2, dgs) => (.failed, tbl2, dgs)
      | (.fatal m, tbl2, dgs) => (.fatal m, tbl2, dgs)
    | others =>
      (.ok { parent := some others,
             defs := [ScopeRef.Pkg id], explicit_defs := [] }, tbl, [])

/-- `impl_make_scope!(ScopeRef)`: dispatch on the identifier kind tag. The
context-items case is `unreachable!()` and the package-instance case is
`unimplemented!()` in the source. -/
def make_scope (c : Ctx) (id : ScopeRef) (tbl : ScopeTable) :
    Outcome Scope × ScopeTable × List Diag :=
  match id with
  | ScopeRef.Lib i => (make_scope_lib i, tbl, [])
  | ScopeRef.CtxItems _ =>
    (.fatal "internal error: entered unreachable code", tbl, [])
  | ScopeRef.Entity i => make_scope_entity c i tbl
  | ScopeRef.BuiltinPkg i => (.ok (c.builtin_pkg_scopes i), tbl, [])
  | ScopeRef.Pkg i => make_scope_pkg c i tbl
  | ScopeRef.PkgInst _ => (.fatal "not implemented", tbl, [])
  | ScopeRef.Arch i => make_scope_arch c i tbl

/-- Modelled from the spec: the scoreboard memoization layer (the `impl_make!`
dispatch and cache of `score.rs`, which is not among the sources covered
here). A memoization state holds the cache of already computed results and
the log of (kind, id) pairs whose side-effecting computation has run. -/
structure Memo (κ ν : Type) where
  cache : List (κ × ν)
  computeLog : List κ

/-- Modelled from the spec: one memoized query. The first call computes,
logs the side-effecting computation, and caches the result; every subsequent
call with the same key returns the cached result without recomputation. -/
def queryMemo {κ ν : Type} [DecidableEq κ] (compute : κ → ν) (k : κ)
    (st : Memo κ ν) : ν × Memo κ ν :=
  match alookup k st.cache with
  | some v => (v, st)
  | none =>
    let v := compute k
    (v, { cache := (k, v) :: st.cache, computeLog := st.computeLog ++ [k] })

/-- Modelled from the spec: an arbitrary sequence of query requests against
one memoization state. -/
def runQueries {κ ν : Type} [DecidableEq κ] (compute : κ → ν) :
    List κ → Memo κ ν → Memo κ ν
  | [], st => st
  | k :: rest, st => runQueries compute rest (queryMemo compute k st).2

/-- The memoization state of a fresh compilation session. -/
def Memo.empty (κ ν : Type) : Memo κ ν := ⟨[], []⟩

/-- The identifiers bound by the library clauses of a context-item list, in
source order. -/
def libClauseIdents : List CtxItem → List (Spanned Name)
  | [] => []
  | CtxItem.LibClause ns :: rest => ns.value ++ libClauseIdents rest
  | _ :: rest => libClauseIdents rest

/-- A context in which every external collaborator gives the trivial answer:
all HIR queries fail, the registry is empty, the resolver fails. -/
def defaultCtx : Ctx where
  ast_entity_name := fun _ => ⟨"", ⟨0, 0⟩⟩
  ast_cfg_name := fun _ => ⟨"", ⟨0, 0⟩⟩
  ast_pkg_decl_name := fun _ => ⟨"", ⟨0, 0⟩⟩
  ast_pkg_inst_name := fun _ => ⟨"", ⟨0, 0⟩⟩
  ast_ctx_name := fun _ => ⟨"", ⟨0, 0⟩⟩
  ast_subtype_name := fun _ => ⟨"", ⟨0, 0⟩⟩
  ast_ctx_items := fun _ => []
  hir_lib := fun _ => .error ()
  hir_entity := fun _ => .error ()
  hir_arch := fun _ => .error ()
  hir_pkg := fun _ => .error ()
  hir_type := fun _ => .error ()
  lib_names := fun _ => none
  builtin_pkg_defs := fun _ => []
  builtin_pkg_scopes := fun _ => ⟨none, [], []⟩
  resolve_compound_name := fun _ _ _ => .error ()
  trace_scoreboard := false

/-- A library holding two entities (used to exhibit a duplicate name). -/
def c2lib : Lib := ⟨[⟨0⟩, ⟨1⟩], [], [], [], [], [], []⟩

/-- A context whose one library holds two entities both named `X`. -/
def c2ctx : Ctx :=
  { defaultCtx with
      hir_lib := fun _ => .ok c2lib,
      ast_entity_name := fun e =>
        if e.idx = 0 then ⟨"X", ⟨1, 2⟩⟩ else ⟨"X", ⟨3, 4⟩⟩ }

/-- A package declaring a subtype named `S` and then an enumeration type `E`
with the literal `S`. -/
def c4pkg : Package :=
  ⟨ScopeRef.Lib ⟨0⟩, ⟨"P", ⟨0, 1⟩⟩, [],
   [DeclInPkgRef.Subtype ⟨0⟩, DeclInPkgRef.Ty ⟨0⟩]⟩

/-- The enumeration type `E` whose single literal is named `S`. -/
def c4ty : TypeDecl :=
  ⟨ScopeRef.Lib ⟨0⟩, ⟨"E", ⟨20, 21⟩⟩,
   some (TypeData.Enum ⟨19, 30⟩ [EnumLit.Ident ⟨"S", ⟨22, 23⟩⟩])⟩

/-- The context for the subtype/enum-literal collision package. -/
def c4ctx : Ctx :=
  { defaultCtx with
      hir_pkg := fun _ => .ok c4pkg,
      hir_type := fun _ => .ok c4ty,
      ast_subtype_name := fun _ => ⟨"S", ⟨10, 11⟩⟩ }

/-- A use-clause name handle. -/
def c5name : CompoundName := ⟨0, ⟨5, 9⟩⟩

/-- A context with one use clause whose name resolves to an entity followed
by a trailing `all` selector — the invalid-selector situation. -/
def c5ctx : Ctx :=
  { defaultCtx with
      ast_ctx_items := fun _ => [CtxItem.UseClause ⟨[c5name], ⟨5, 9⟩⟩],
      resolve_compound_name := fun _ _ _ =>
        .ok (ResName.ident "x", [⟨Def.Entity ⟨0⟩, ⟨5, 6⟩⟩], ⟨5, 6⟩,
             [NamePart.SelectAll ⟨7, 9⟩]) }

/-- A use-clause name handle for the trailing-suffix scenario. -/
def c5name2 : CompoundName := ⟨1, ⟨10, 18⟩⟩

/-- A context with one use clause whose name resolves to a package but leaves
unconsumed trailing syntax after the valid prefix — the invalid-name-suffix
situation. -/
def c5ctxSuffix : Ctx :=
  { defaultCtx with
      ast_ctx_items := fun _ => [CtxItem.UseClause ⟨[c5name2], ⟨10, 18⟩⟩],
      resolve_compound_name := fun _ _ _ =>
        .ok (ResName.ident "y", [⟨Def.Pkg ⟨0⟩, ⟨10, 12⟩⟩], ⟨10, 14⟩,
             [NamePart.Select ⟨ResName.ident "z", ⟨15, 16⟩⟩]) }

/-- Enumeration type `T1` with literals `A`, `B`. -/
def c6t1 : TypeDecl :=
  ⟨ScopeRef.Lib ⟨0⟩, ⟨"T1", ⟨1, 2⟩⟩,
   some (TypeData.Enum ⟨0, 0⟩
     [EnumLit.Ident ⟨"A", ⟨3, 4⟩⟩, EnumLit.Ident ⟨"B", ⟨5, 6⟩⟩])⟩

/-- Enumeration type `T2` redeclaring the literal `A`. -/
def c6t2 : TypeDecl :=
  ⟨ScopeRef.Lib ⟨0⟩, ⟨"T2", ⟨7, 8⟩⟩,
   some (TypeData.Enum ⟨0, 0⟩ [EnumLit.Ident ⟨"A", ⟨9, 10⟩⟩])⟩

/-- The package declaring `T1` and then `T2`. -/
def c6pkg : Package :=
  ⟨ScopeRef.Lib ⟨0⟩, ⟨"P", ⟨0, 1⟩⟩, [], [DeclInPkgRef.Ty ⟨0⟩, DeclInPkgRef.Ty ⟨1⟩]⟩

/-- The context for the overloaded-enumeration-literal package. -/
def c6ctx : Ctx :=
  { defaultCtx with
      hir_pkg := fun _ => .ok c6pkg,
      hir_type := fun t => if t.idx = 0 then .ok c6t1 else .ok c6t2 }

/-- An entity whose context items are the (empty) item list 0. -/
def c8entity : Entity := ⟨⟨0⟩, ⟨0⟩, ⟨"E", ⟨1, 2⟩⟩, [], []⟩

/-- An architecture of that entity whose context items are item list 1. -/
def c8arch : Arch := ⟨⟨1⟩, ⟨0⟩, ⟨"A1", ⟨3, 4⟩⟩, [], []⟩

/-- The context for the scope-chaining example. -/
def c8ctx : Ctx :=
  { defaultCtx with
      hir_entity := fun _ => .ok c8entity,
      hir_arch := fun _ => .ok c8arch }

/-- A context whose registry knows the library `work`; context-item list 0
names `work`, context-item list 1 names the unknown library `nosuch`. -/
def c9ctx : Ctx :=
  { defaultCtx with
      lib_names := fun n => if n = "work" then some ⟨0⟩ else none,
      ast_ctx_items := fun i =>
        if i.idx = 0 then
          [CtxItem.LibClause ⟨[⟨"work", ⟨1, 5⟩⟩], ⟨0, 5⟩⟩]
        else
          [CtxItem.LibClause ⟨[⟨"nosuch", ⟨1, 7⟩⟩], ⟨0, 7⟩⟩] }

/-- A library holding a single entity (no duplicate names). -/
def c7lib : Lib := ⟨[⟨0⟩], [], [], [], [], [], []⟩

/-- A context whose one library holds one entity named `X`. -/
def c7ctx : Ctx :=
  { defaultCtx with
      hir_lib := fun _ => .ok c7lib,
      ast_entity_name := fun _ => ⟨"X", ⟨1, 2⟩⟩ }

/-- The names under which the literals of an enumeration type are
registered, in declaration order. -/
def litKeys (lits : List EnumLit) : List ResName :=
  lits.map (fun l =>
    match l with
    | EnumLit.Ident n => ResName.ident n.value
    | EnumLit.Char ch => ResName.bit ch.value)

/-- The definitions that the literals of the enumeration type `t` with
literal list `lits` contribute under the name `k`, in declaration order. -/
def enumEntriesAt (t : TypeDeclRef) (lits : List EnumLit) (k : ResName) :
    List (Spanned Def) :=
  ((lits.enum.map (enumLitEntry t)).filter (fun p => p.1.value = k)).map
    (fun p => ⟨p.2, p.1.span⟩)

/-- The memoization cache is consistent with the computation log: a key's
side-effecting computation has run exactly once when it is cached and never
otherwise. -/
def MemoInv {κ ν : Type} [DecidableEq κ] (st : Memo κ ν) : Prop :=
  ∀ k : κ, st.computeLog.count k = if (alookup k st.cache).isSome then 1 else 0

theorem memoInv_empty {κ ν : Type} [DecidableEq κ] : MemoInv (Memo.empty κ ν) := by
  intro k
  simp [Memo.empty, alookup]

theorem memoInv_query {κ ν : Type} [DecidableEq κ] {st : Memo κ ν}
    (compute : κ → ν) (k : κ) (h : MemoInv st) :
    MemoInv (queryMemo compute k st).2 := by
  intro k2
  unfold queryMemo
  cases hq : alookup k st.cache with
  | some v => simpa using h k2
  | none =>
    by_cases hk : k2 = k
    · subst hk
      have h0 := h k2
      rw [hq] at h0
      simp at h0
      simp [List.count_append, h0, alookup]
    · have h0 := h k2
      simp [List.count_append, alookup, hk, h0, List.count_cons]

theorem memoInv_run {κ ν : Type} [DecidableEq κ] (compute : κ → ν)
    (ks : List κ) (st : Memo κ ν) (h : MemoInv st) :
    MemoInv (runQueries compute ks st) := by
  induction ks generalizing st with
  | nil => exact h
  | cons k0 rest ih => exact ih _ (memoInv_query compute k0 h)

theorem run_cache_lookup {κ ν : Type} [DecidableEq κ] (compute : κ → ν)
    (ks : List κ) (st : Memo κ ν) (k : κ) :
    ((alookup k (runQueries compute ks st).cache).isSome = true) ↔
      ((alookup k st.cache).isSome = true ∨ k ∈ ks) := by
  induction ks generalizing st with
  | nil => simp [runQueries]
  | cons k0 rest ih =>
    rw [runQueries, ih]
    have hstep : (alookup k (queryMemo compute k0 st).2.cache).isSome = true ↔
        ((alookup k st.cache).isSome = true ∨ k = k0) := by
      unfold queryMemo
      cases hq : alookup k0 st.cache with
      | some v =>
        simp only [Option.isSome]
        constructor
        · intro hh; exact Or.inl hh
        · intro hh
          cases hh with
          | inl hh => exact hh
          | inr hh => subst hh; simp [hq]
      | none =>
        by_cases hk : k = k0
        · subst hk; simp [alookup]
        · simp [alookup, hk]
    rw [hstep, List.mem_cons]
    tauto

/-- C1: for every identifier and artifact kind, repeated queries return the
identical result and leave the memoization state unchanged, and over any
sequence of requests in any order the side-effecting computation of a
requested key runs exactly once.  (The memoization layer itself lives outside
the covered sources and is modelled from the spec.) -/
theorem c1_memoized_queries {κ ν : Type} [DecidableEq κ] (compute : κ → ν)
    (k : κ) (st : Memo κ ν) (ks : List κ) :
    queryMemo compute k (queryMemo compute k st).2 = queryMemo compute k st ∧
    (runQueries compute ks (Memo.empty κ ν)).computeLog.count k =
      if k ∈ ks then 1 else 0 := by
  constructor
  · show queryMemo compute k (queryMemo compute k st).2 = queryMemo compute k st
    unfold queryMemo
    cases hq : alookup k st.cache with
    | some v => simp [hq]
    | none => simp [hq, alookup]
  · have hInv := memoInv_run compute ks (Memo.empty κ ν) memoInv_empty
    rw [hInv k]
    have hlk := run_cache_lookup compute ks (Memo.empty κ ν) k
    by_cases hk : k ∈ ks
    · rw [if_pos hk, if_pos (hlk.mpr (Or.inr hk))]
    · rw [if_neg hk, if_neg]
      intro hcontra
      rcases hlk.mp hcontra with h1 | h1
      · simp [Memo.empty, alookup] at h1
      · exact hk h1

/-- C3 counterexample: the definitions query for an entity succeeds with an
empty table instead of raising a "not yet supported" outcome, and likewise
for an architecture. -/
theorem c3_counterexample :
    make_defs defaultCtx (ScopeRef.Entity ⟨0⟩) = (Outcome.ok [], []) ∧
    make_defs defaultCtx (ScopeRef.Arch ⟨0⟩) = (Outcome.ok [], []) := by
  exact ⟨rfl, rfl⟩

/-- C3 amended: only the package-instance definitions query raises the
"not implemented" (panic) outcome; entity and architecture definitions
queries return an empty table as success, so callers cannot tell "has no
definitions" apart from "resolution not implemented" for those two kinds. -/
theorem c3_amended (c : Ctx) (e : EntityRef) (a : ArchRef) (p : PkgInstRef) :
    make_defs c (ScopeRef.Entity e) = (Outcome.ok [], []) ∧
    make_defs c (ScopeRef.Arch a) = (Outcome.ok [], []) ∧
    make_defs c (ScopeRef.PkgInst p) = (Outcome.fatal "not implemented", []) := by
  exact ⟨rfl, rfl, rfl⟩

/-- C4: evaluating the package-definitions query on a package that declares a
subtype `S` and then an enumeration literal `S` yields a successful table
holding both definitions under `S` and emits no diagnostic — the code lets an
enumeration literal silently overload an earlier non-overloadable
declaration, violating the stated invariant. -/
theorem c4_code_eval :
    make_defs_pkg c4ctx ⟨0⟩ =
      (Outcome.ok
        [(ResName.ident "S",
          [⟨Def.Subtype ⟨0⟩, ⟨10, 11⟩⟩, ⟨Def.Enum ⟨⟨0⟩, 0⟩, ⟨22, 23⟩⟩]),
         (ResName.ident "E", [⟨Def.Ty ⟨0⟩, ⟨20, 21⟩⟩])], []) ∧
    2 ≤ (entryGet
      [(ResName.ident "S",
        [⟨Def.Subtype ⟨0⟩, ⟨10, 11⟩⟩, ⟨Def.Enum ⟨⟨0⟩, 0⟩, ⟨22, 23⟩⟩]),
       (ResName.ident "E", [⟨Def.Ty ⟨0⟩, ⟨20, 21⟩⟩])]
      (ResName.ident "S")).length := by
  exact ⟨rfl, by decide⟩

/-- C10 counterexample: the scope query panics for the package-instance and
context-items variants of `ScopeRef` instead of returning a Result. -/
theorem c10_counterexample :
    make_scope defaultCtx (ScopeRef.PkgInst ⟨0⟩) [] =
      (Outcome.fatal "not implemented", [], []) ∧
    make_scope defaultCtx (ScopeRef.CtxItems ⟨0⟩) [] =
      (Outcome.fatal "internal error: entered unreachable code", [], []) := by
  exact ⟨rfl, rfl⟩

theorem entryGet_defsExtend (m : Defs) (k n : ResName) (ds : List (Spanned Def)) :
    entryGet (defsExtend m k ds) n =
      if n = k then entryGet m n ++ ds else entryGet m n := by
  induction m with
  | nil =>
    by_cases h : n = k <;> simp [defsExtend, entryGet, alookup, h]
  | cons hd tl ih =>
    obtain ⟨n0, v⟩ := hd
    by_cases h0 : k = n0
    · subst h0
      by_cases h2 : n = k <;> simp [defsExtend, entryGet, alookup, h2]
    · by_cases h2 : n = n0
      · subst h2
        have hnk : ¬(n = k) := fun hh => h0 hh.symm
        simp [defsExtend, entryGet, alookup, h0, hnk]
      · simp only [defsExtend, if_neg h0]
        have := ih
        simp [entryGet, alookup, h2] at this ⊢
        exact this

theorem entryGet_defsPush (m : Defs) (k n : ResName) (d : Spanned Def) :
    entryGet (defsPush m k d) n =
      if n = k then entryGet m n ++ [d] else entryGet m n :=
  entryGet_defsExtend m k n [d]

theorem entryGet_foldl_push {α : Type} (key : α → ResName) (val : α → Spanned Def)
    (l : List α) (m : Defs) (n : ResName) :
    entryGet (l.foldl (fun acc p => defsPush acc (key p) (val p)) m) n =
      entryGet m n ++ (l.filter (fun p => key p = n)).map val := by
  induction l generalizing m with
  | nil => simp
  | cons p rest ih =>
    rw [List.foldl_cons, ih, entryGet_defsPush]
    by_cases h : key p = n
    · rw [if_pos h.symm, List.filter_cons_of_pos (by simpa using h)]
      simp
    · rw [if_neg (fun hh => h hh.symm), List.filter_cons_of_neg (by simpa using h)]

theorem alookup_eq_none_iff {κ ν : Type} [DecidableEq κ] (m : List (κ × ν)) (k : κ) :
    alookup k m = none ↔ k ∉ m.map Prod.fst := by
  induction m with
  | nil => simp [alookup]
  | cons hd tl ih =>
    obtain ⟨k0, v⟩ := hd
    by_cases h : k = k0 <;> simp [alookup, h, ih]

theorem alookup_mem {κ ν : Type} [DecidableEq κ] {m : List (κ × ν)} {k : κ} {v : ν}
    (h : alookup k m = some v) : (k, v) ∈ m := by
  induction m with
  | nil => simp [alookup] at h
  | cons hd tl ih =>
    obtain ⟨k0, v0⟩ := hd
    by_cases h0 : k = k0
    · subst h0
      simp [alookup] at h
      simp [h]
    · simp [alookup, h0] at h
      simp [ih h]

theorem keys_defsExtend (m : Defs) (k : ResName) (ds : List (Spanned Def)) :
    (defsExtend m k ds).map Prod.fst =
      if (alookup k m).isSome then m.map Prod.fst else m.map Prod.fst ++ [k] := by
  induction m with
  | nil => simp [defsExtend, alookup]
  | cons hd tl ih =>
    obtain ⟨k0, v⟩ := hd
    by_cases h : k = k0
    · subst h; simp [defsExtend, alookup]
    · simp [defsExtend, alookup, h, ih]
      by_cases h2 : (alookup k tl).isSome <;> simp [h2]

theorem nodup_keys_defsExtend (m : Defs) (k : ResName) (ds : List (Spanned Def))
    (h : (m.map Prod.fst).Nodup) : ((defsExtend m k ds).map Prod.fst).Nodup := by
  rw [keys_defsExtend]
  by_cases hs : (alookup k m).isSome
  · simpa [hs] using h
  · have hnone : alookup k m = none := by
      cases hl : alookup k m
      · rfl
      · rw [hl] at hs; simp at hs
    have hnm : k ∉ m.map Prod.fst := (alookup_eq_none_iff m k).mp hnone
    simp [hs, List.nodup_append, h, hnm]

theorem nodup_keys_foldl_push {α : Type} (key : α → ResName) (val : α → Spanned Def)
    (l : List α) (m : Defs) (h : (m.map Prod.fst).Nodup) :
    ((l.foldl (fun acc p => defsPush acc (key p) (val p)) m).map Prod.fst).Nodup := by
  induction l generalizing m with
  | nil => exact h
  | cons p rest ih =>
    rw [List.foldl_cons]
    exact ih _ (nodup_keys_defsExtend m (key p) [val p] h)

theorem filter_key_of_nodup (m : Defs) (n : ResName)
    (h : (m.map Prod.fst).Nodup) :
    m.filter (fun e => e.1 = n) = ((alookup n m).map (fun v => (n, v))).toList := by
  induction m with
  | nil => simp [alookup]
  | cons hd tl ih =>
    obtain ⟨k0, v0⟩ := hd
    simp only [List.map_cons, List.nodup_cons] at h
    obtain ⟨hk0, htl⟩ := h
    by_cases h0 : k0 = n
    · subst h0
      have hrest : tl.filter (fun e => e.1 = k0) = [] := by
        rw [List.filter_eq_nil_iff]
        intro e he
        simp only [decide_eq_true_eq]
        intro heq
        exact hk0 (heq ▸ List.mem_map_of_mem Prod.fst he)
      simp [alookup, List.filter_cons, hrest]
    · have hne : ¬(n = k0) := fun hh => h0 hh.symm
      simp [alookup, List.filter_cons, h0, hne, ih htl]

theorem entryGet_buildLibDefs (l : List (Spanned Name × Def)) (n : ResName) :
    entryGet (buildLibDefs l) n =
      (l.filter (fun p => ResName.ident p.1.value = n)).map
        (fun p => (⟨p.2, p.1.span⟩ : Spanned Def)) := by
  have h := entryGet_foldl_push (fun p : Spanned Name × Def => ResName.ident p.1.value)
    (fun p : Spanned Name × Def => (⟨p.2, p.1.span⟩ : Spanned Def)) l [] n
  simpa [buildLibDefs, entryGet, alookup] using h

theorem nodup_keys_buildLibDefs (l : List (Spanned Name × Def)) :
    ((buildLibDefs l).map Prod.fst).Nodup := by
  have h := nodup_keys_foldl_push (fun p : Spanned Name × Def => ResName.ident p.1.value)
    (fun p : Spanned Name × Def => (⟨p.2, p.1.span⟩ : Spanned Def)) l [] (by simp)
  simpa [buildLibDefs] using h

/-- The diagnostics component of the library-definitions query is the list of
duplicate-name errors whether or not the query fails. -/
theorem make_defs_lib_from_diags (c : Ctx) (lib : Lib) :
    (make_defs_lib_from c lib).2 = libDupDiags (buildLibDefs (libContribs c lib)) := by
  unfold make_defs_lib_from
  by_cases h : (libDupDiags (buildLibDefs (libContribs c lib))).isEmpty <;> simp [h]

/-- C2: a library binding one name more than once yields a failed definitions
query, and exactly one diagnostic is emitted for that name, citing the spans
of all conflicting declarations. -/
theorem c2_duplicate_library_name (c : Ctx) (id : LibRef) (lib : Lib) (X : Name)
    (hhir : c.hir_lib id = .ok lib)
    (hdup : 2 ≤ ((libContribs c lib).filter (fun p => p.1.value = X)).length) :
    (make_defs_lib c id).1 = Outcome.failed ∧
    (make_defs_lib c id).2.filter
        (fun d => d.msg = DiagMsg.declaredMultipleTimes (ResName.ident X)) =
      [⟨DiagMsg.declaredMultipleTimes (ResName.ident X),
        ((libContribs c lib).filter (fun p => p.1.value = X)).map
          (fun p => p.1.span)⟩] := by
  have hfiltereq :
      (libContribs c lib).filter
          (fun p => ResName.ident p.1.value = ResName.ident X) =
        (libContribs c lib).filter (fun p => p.1.value = X) := by
    apply List.filter_congr
    intro p _
    simp [ResName.ident.injEq]
  have hentry : entryGet (buildLibDefs (libContribs c lib)) (ResName.ident X) =
      ((libContribs c lib).filter (fun p => p.1.value = X)).map
        (fun p => (⟨p.2, p.1.span⟩ : Spanned Def)) := by
    rw [entryGet_buildLibDefs, hfiltereq]
  have hlen : 2 ≤ (entryGet (buildLibDefs (libContribs c lib))
      (ResName.ident X)).length := by
    rw [hentry, List.length_map]
    exact hdup
  have hnodup := nodup_keys_buildLibDefs (libContribs c lib)
  have hsome : alookup (ResName.ident X) (buildLibDefs (libContribs c lib)) =
      some (entryGet (buildLibDefs (libContribs c lib)) (ResName.ident X)) := by
    cases hl : alookup (ResName.ident X) (buildLibDefs (libContribs c lib)) with
    | none =>
      exfalso
      have : entryGet (buildLibDefs (libContribs c lib)) (ResName.ident X) = [] := by
        simp [entryGet, hl]
      rw [this] at hlen
      simp at hlen
    | some v =>
      have : entryGet (buildLibDefs (libContribs c lib)) (ResName.ident X) = v := by
        simp [entryGet, hl]
      rw [this]
  have hmem : (ResName.ident X,
      entryGet (buildLibDefs (libContribs c lib)) (ResName.ident X)) ∈
        buildLibDefs (libContribs c lib) := alookup_mem hsome
  have hmemf : (ResName.ident X,
      entryGet (buildLibDefs (libContribs c lib)) (ResName.ident X)) ∈
        (buildLibDefs (libContribs c lib)).filter (fun e => 1 < e.2.length) := by
    rw [List.mem_filter]
    exact ⟨hmem, by simpa using Nat.lt_of_lt_of_le Nat.one_lt_two hlen⟩
  have hddne : ¬(libDupDiags (buildLibDefs (libContribs c lib))).isEmpty = true := by
    unfold libDupDiags
    intro hE
    rw [List.isEmpty_iff] at hE
    rw [List.map_eq_nil_iff] at hE
    rw [hE] at hmemf
    simp at hmemf
  constructor
  · unfold make_defs_lib
    rw [hhir]
    unfold make_defs_lib_from
    simp only [hddne, if_false, Bool.false_eq_true]
  · have hdiags : (make_defs_lib c id).2 =
        libDupDiags (buildLibDefs (libContribs c lib)) := by
      unfold make_defs_lib
      rw [hhir, make_defs_lib_from_diags]
    rw [hdiags]
    unfold libDupDiags
    rw [List.filter_map]
    have hpred : ∀ e : ResName × List (Spanned Def),
        ((fun d : Diag => decide
            (d.msg = DiagMsg.declaredMultipleTimes (ResName.ident X))) ∘
          (fun e : ResName × List (Spanned Def) =>
            (⟨DiagMsg.declaredMultipleTimes e.1, e.2.map Spanned.span⟩ : Diag))) e =
          decide (e.1 = ResName.ident X) := by
      intro e
      simp [DiagMsg.declaredMultipleTimes.injEq]
    rw [List.filter_congr (fun e _ => hpred e)]
    rw [List.filter_filter]
    have hswap : ∀ e : ResName × List (Spanned Def),
        (decide (e.1 = ResName.ident X) && decide (1 < e.2.length)) =
          (decide (1 < e.2.length) && decide (e.1 = ResName.ident X)) := by
      intro e
      rw [Bool.and_comm]
    rw [List.filter_congr (fun e _ => hswap e)]
    rw [← List.filter_filter]
    rw [filter_key_of_nodup _ _ hnodup, hsome]
    simp only [Option.map_some', Option.toList_some]
    rw [List.filter_cons_of_pos (by simpa using Nat.lt_of_lt_of_le Nat.one_lt_two hlen)]
    rw [List.filter_nil, List.map_cons, List.map_nil]
    rw [hentry, List.map_map]
    rfl

/-- C2 witness input: two entities named `X`. -/
theorem c2_duplicate_library_name_witness :
    (make_defs_lib c2ctx ⟨0⟩).1 = Outcome.failed ∧
    (make_defs_lib c2ctx ⟨0⟩).2.filter
        (fun d => d.msg = DiagMsg.declaredMultipleTimes (ResName.ident "X")) =
      [⟨DiagMsg.declaredMultipleTimes (ResName.ident "X"),
        ((libContribs c2ctx c2lib).filter (fun p => p.1.value = "X")).map
          (fun p => p.1.span)⟩] :=
  c2_duplicate_library_name c2ctx ⟨0⟩ c2lib "X" rfl (by decide)

/-- C7: a successful library-definitions table holds exactly the pairs
contributed by the entities, configurations, package declarations, package
instances, and contexts the library directly contains; character-literal
names never occur, and architectures and package bodies do not influence the
result at all. -/
theorem c7_library_defs_content (c : Ctx) (id : LibRef) (lib : Lib) (m : Defs)
    (dgs : List Diag)
    (hhir : c.hir_lib id = .ok lib)
    (hok : make_defs_lib c id = (Outcome.ok m, dgs)) :
    (∀ n : Name, entryGet m (ResName.ident n) =
      ((libContribs c lib).filter (fun p => p.1.value = n)).map
        (fun p => (⟨p.2, p.1.span⟩ : Spanned Def))) ∧
    (∀ ch : Char, entryGet m (ResName.bit ch) = []) ∧
    (∀ (a : List ArchRef) (pb : List PkgBodyRef),
      make_defs_lib_from c { lib with archs := a, pkg_bodies := pb } =
        make_defs_lib_from c lib) := by
  have hm : m = buildLibDefs (libContribs c lib) := by
    unfold make_defs_lib at hok
    rw [hhir] at hok
    unfold make_defs_lib_from at hok
    dsimp only at hok
    by_cases h : (libDupDiags (buildLibDefs (libContribs c lib))).isEmpty
    · rw [if_pos h] at hok
      have := congrArg Prod.fst hok
      simp only at this
      cases this
      rfl
    · rw [if_neg h] at hok
      have := congrArg Prod.fst hok
      simp at this
  subst hm
  refine ⟨?_, ?_, ?_⟩
  · intro n
    rw [entryGet_buildLibDefs]
    apply congrArg
    apply List.filter_congr
    intro p _
    simp [ResName.ident.injEq]
  · intro ch
    rw [entryGet_buildLibDefs]
    have : (libContribs c lib).filter
        (fun p => ResName.ident p.1.value = ResName.bit ch) = [] := by
      rw [List.filter_eq_nil_iff]
      intro p _
      simp
    rw [this, List.map_nil]
  · intro a pb
    rfl

/-- C7 witness input: one library with a single entity named `X`. -/
theorem c7_library_defs_content_witness :
    (∀ n : Name, entryGet (buildLibDefs (libContribs c7ctx c7lib)) (ResName.ident n) =
      ((libContribs c7ctx c7lib).filter (fun p => p.1.value = n)).map
        (fun p => (⟨p.2, p.1.span⟩ : Spanned Def))) ∧
    (∀ ch : Char, entryGet (buildLibDefs (libContribs c7ctx c7lib)) (ResName.bit ch) = []) ∧
    (∀ (a : List ArchRef) (pb : List PkgBodyRef),
      make_defs_lib_from c7ctx { c7lib with archs := a, pkg_bodies := pb } =
        make_defs_lib_from c7ctx c7lib) :=
  c7_library_defs_content c7ctx ⟨0⟩ c7lib
    (buildLibDefs (libContribs c7ctx c7lib)) [] rfl rfl

/-- C5 counterexample: a use clause applying `all` to an entity emits the
invalid-selector diagnostic but the scope query still returns success. -/
theorem c5_counterexample :
    make_ctx_items_scope c5ctx ⟨0⟩ none [] =
      (Outcome.ok ⟨0⟩,
       [(ScopeRef.CtxItems ⟨0⟩,
         ⟨none, [ScopeRef.CtxItems ⟨0⟩], []⟩)],
       [⟨DiagMsg.allNotPossibleOn ⟨5, 6⟩, [⟨7, 9⟩]⟩]) := by
  rfl

/-- C5 amended: when a use clause applies `all` to a non-package, or leaves
trailing syntax after a valid prefix, the diagnostic (invalid selector
resp. invalid name suffix) is emitted at the point of detection, the
offending name is skipped, and the enclosing scope query returns success
rather than a failure result. -/
theorem c5_amended (c1 c2 : Ctx) (id1 id2 : CtxItemsRef)
    (parent1 parent2 : Option ScopeRef) (tbl1 tbl2 : ScopeTable)
    (nm1 nm2 : CompoundName) (rn1 rn2 : ResName)
    (ds1 ds2 : List (Spanned Def)) (d : Spanned Def) (vs1 vs2 sa : Span)
    (np : Spanned ResName) (tl2 : List NamePart)
    (hitems1 : c1.ast_ctx_items id1 = [CtxItem.UseClause ⟨[nm1], nm1.span⟩])
    (hres1 : c1.resolve_compound_name nm1 (ScopeRef.CtxItems id1) true =
      .ok (rn1, ds1 ++ [d], vs1, [NamePart.SelectAll sa]))
    (hnotpkg : ∀ p : PkgDeclRef, d.value ≠ Def.Pkg p)
    (hitems2 : c2.ast_ctx_items id2 = [CtxItem.UseClause ⟨[nm2], nm2.span⟩])
    (hres2 : c2.resolve_compound_name nm2 (ScopeRef.CtxItems id2) true =
      .ok (rn2, ds2, vs2, NamePart.Select np :: tl2)) :
    ((make_ctx_items_scope c1 id1 parent1 tbl1).1 = Outcome.ok id1 ∧
     (make_ctx_items_scope c1 id1 parent1 tbl1).2.2 =
       [⟨DiagMsg.allNotPossibleOn vs1, [sa]⟩]) ∧
    ((make_ctx_items_scope c2 id2 parent2 tbl2).1 = Outcome.ok id2 ∧
     (make_ctx_items_scope c2 id2 parent2 tbl2).2.2 =
       [⟨DiagMsg.invalidNameSuffix,
         [Span.union (Span.pt vs2.hi) (Span.pt nm2.span.hi)]⟩]) := by
  constructor
  · obtain ⟨dv, dsp⟩ := d
    have hstep : useNameStep c1 id1 ⟨[ScopeRef.CtxItems id1], [], []⟩ nm1 =
        LoopOut.ok ⟨[ScopeRef.CtxItems id1], [],
          [⟨DiagMsg.allNotPossibleOn vs1, [sa]⟩]⟩ := by
      unfold useNameStep
      rw [hres1]
      dsimp only
      rw [List.getLast?_concat]
      cases dv with
      | Pkg p => exact absurd rfl (hnotpkg p)
      | Lib i => rfl
      | Entity i => rfl
      | Cfg i => rfl
      | PkgInst i => rfl
      | Ctx i => rfl
      | Ty i => rfl
      | Subtype i => rfl
      | Enum i => rfl
    have hloop : ctxScopeItemsLoop c1 id1 (c1.ast_ctx_items id1)
        ⟨[ScopeRef.CtxItems id1], [], []⟩ =
          LoopOut.ok ⟨[ScopeRef.CtxItems id1], [],
            [⟨DiagMsg.allNotPossibleOn vs1, [sa]⟩]⟩ := by
      rw [hitems1]
      unfold ctxScopeItemsLoop
      unfold useNamesLoop
      rw [hstep]
      rfl
    unfold make_ctx_items_scope
    rw [hloop]
    exact ⟨rfl, rfl⟩
  · have hstep : useNameStep c2 id2 ⟨[ScopeRef.CtxItems id2], [], []⟩ nm2 =
        LoopOut.ok ⟨[ScopeRef.CtxItems id2], explicitExtend [] rn2 ds2,
          [⟨DiagMsg.invalidNameSuffix,
            [Span.union (Span.pt vs2.hi) (Span.pt nm2.span.hi)]⟩]⟩ := by
      unfold useNameStep
      rw [hres2]
      dsimp only
      rw [if_pos (by simp), List.head?_cons]
      rfl
    have hloop : ctxScopeItemsLoop c2 id2 (c2.ast_ctx_items id2)
        ⟨[ScopeRef.CtxItems id2], [], []⟩ =
          LoopOut.ok ⟨[ScopeRef.CtxItems id2], explicitExtend [] rn2 ds2,
            [⟨DiagMsg.invalidNameSuffix,
              [Span.union (Span.pt vs2.hi) (Span.pt nm2.span.hi)]⟩]⟩ := by
      rw [hitems2]
      unfold ctxScopeItemsLoop
      unfold useNamesLoop
      rw [hstep]
      rfl
    unfold make_ctx_items_scope
    rw [hloop]
    exact ⟨rfl, rfl⟩

/-- C5 witness inputs: one use clause applying `all` to an entity, and one
use clause on a package with a trailing selection after the valid prefix. -/
theorem c5_amended_witness :
    ((make_ctx_items_scope c5ctx ⟨0⟩ none []).1 = Outcome.ok ⟨0⟩ ∧
     (make_ctx_items_scope c5ctx ⟨0⟩ none []).2.2 =
       [⟨DiagMsg.allNotPossibleOn ⟨5, 6⟩, [⟨7, 9⟩]⟩]) ∧
    ((make_ctx_items_scope c5ctxSuffix ⟨0⟩ none []).1 = Outcome.ok ⟨0⟩ ∧
     (make_ctx_items_scope c5ctxSuffix ⟨0⟩ none []).2.2 =
       [⟨DiagMsg.invalidNameSuffix,
         [Span.union (Span.pt 14) (Span.pt 18)]⟩]) :=
  c5_amended c5ctx c5ctxSuffix ⟨0⟩ ⟨0⟩ none none [] [] c5name c5name2
    (ResName.ident "x") (ResName.ident "y") [] [⟨Def.Pkg ⟨0⟩, ⟨10, 12⟩⟩]
    ⟨Def.Entity ⟨0⟩, ⟨5, 6⟩⟩ ⟨5, 6⟩ ⟨10, 14⟩ ⟨7, 9⟩
    ⟨ResName.ident "z", ⟨15, 16⟩⟩ []
    rfl rfl (fun p h => by cases h) rfl rfl

/-- A successful `make_ctx_items_scope` call returns the queried reference
itself and records, under that reference, a scope whose parent is the
requested parent. -/
theorem make_ctx_items_scope_ok {c : Ctx} {id : CtxItemsRef}
    {p : Option ScopeRef} {tbl : ScopeTable} {r : CtxItemsRef}
    {t : ScopeTable} {dgs : List Diag}
    (h : make_ctx_items_scope c id p tbl = (Outcome.ok r, t, dgs)) :
    r = id ∧ ∃ s : Scope, s.parent = p ∧
      alookup (ScopeRef.CtxItems id) t = some s := by
  unfold make_ctx_items_scope at h
  cases hl : ctxScopeItemsLoop c id (c.ast_ctx_items id)
      ⟨[ScopeRef.CtxItems id], [], []⟩ with
  | ok st =>
    rw [hl] at h
    dsimp only at h
    have h1 := congrArg Prod.fst h
    have h2 := congrArg (fun x => x.2.1) h
    simp only at h1 h2
    cases h1
    refine ⟨rfl, ⟨⟨p, st.defs, st.explicit_defs⟩, rfl, ?_⟩⟩
    rw [← h2]
    simp [alookup]
  | failed st =>
    rw [hl] at h
    exact absurd (congrArg Prod.fst h) (by simp)
  | fatal msg st =>
    rw [hl] at h
    exact absurd (congrArg Prod.fst h) (by simp)

/-- C8: a successfully built entity scope chains to the scope of the entity's
context items, which itself has no parent; a successfully built architecture
scope chains to the scope of the architecture's context items, which itself
chains to the architecture's entity. -/
theorem c8_scope_parent_chain (c : Ctx) (eid : EntityRef) (aid : ArchRef)
    (ehir : Entity) (ahir : Arch) (tbl tbla : ScopeTable)
    (r1 r2 : CtxItemsRef) (t1 t2 : ScopeTable) (d1 d2 : List Diag)
    (he : c.hir_entity eid = .ok ehir)
    (ha : c.hir_arch aid = .ok ahir)
    (hc1 : make_ctx_items_scope c ehir.ctx_items none tbl = (Outcome.ok r1, t1, d1))
    (hc2 : make_ctx_items_scope c ahir.ctx_items
      (some (ScopeRef.Entity ahir.entity)) tbla = (Outcome.ok r2, t2, d2)) :
    (∃ s : Scope, (make_scope_entity c eid tbl).1 = Outcome.ok s ∧
      s.parent = some (ScopeRef.CtxItems ehir.ctx_items)) ∧
    (∃ cs : Scope,
      alookup (ScopeRef.CtxItems ehir.ctx_items) (make_scope_entity c eid tbl).2.1 =
        some cs ∧ cs.parent = none) ∧
    (∃ s : Scope, (make_scope_arch c aid tbla).1 = Outcome.ok s ∧
      s.parent = some (ScopeRef.CtxItems ahir.ctx_items)) ∧
    (∃ cs : Scope,
      alookup (ScopeRef.CtxItems ahir.ctx_items) (make_scope_arch c aid tbla).2.1 =
        some cs ∧ cs.parent = some (ScopeRef.Entity ahir.entity)) := by
  obtain ⟨hr1, s1, hs1p, hs1⟩ := make_ctx_items_scope_ok hc1
  obtain ⟨hr2, s2, hs2p, hs2⟩ := make_ctx_items_scope_ok hc2
  subst hr1
  subst hr2
  have hent : make_scope_entity c eid tbl =
      (Outcome.ok { parent := some (ScopeRef.CtxItems ehir.ctx_items),
                    defs := [ScopeRef.Entity eid], explicit_defs := [] },
       t1, d1) := by
    unfold make_scope_entity
    rw [he]
    dsimp only
    rw [hc1]
  have harch : make_scope_arch c aid tbla =
      (Outcome.ok { parent := some (ScopeRef.CtxItems ahir.ctx_items),
                    defs := [ScopeRef.Arch aid], explicit_defs := [] },
       t2, d2) := by
    unfold make_scope_arch
    rw [ha]
    dsimp only
    rw [hc2]
  refine ⟨⟨_, by rw [hent], rfl⟩, ⟨s1, ?_, hs1p⟩, ⟨_, by rw [harch], rfl⟩,
    ⟨s2, ?_, hs2p⟩⟩
  · rw [hent]
    exact hs1
  · rw [harch]
    exact hs2

/-- C8 witness input: an entity with empty context items and an architecture
of that entity with empty context items. -/
theorem c8_scope_parent_chain_witness :
    (∃ s : Scope, (make_scope_entity c8ctx ⟨0⟩ []).1 = Outcome.ok s ∧
      s.parent = some (ScopeRef.CtxItems c8entity.ctx_items)) ∧
    (∃ cs : Scope,
      alookup (ScopeRef.CtxItems c8entity.ctx_items)
        (make_scope_entity c8ctx ⟨0⟩ []).2.1 = some cs ∧ cs.parent = none) ∧
    (∃ s : Scope, (make_scope_arch c8ctx ⟨0⟩ []).1 = Outcome.ok s ∧
      s.parent = some (ScopeRef.CtxItems c8arch.ctx_items)) ∧
    (∃ cs : Scope,
      alookup (ScopeRef.CtxItems c8arch.ctx_items)
        (make_scope_arch c8ctx ⟨0⟩ []).2.1 = some cs ∧
        cs.parent = some (ScopeRef.Entity c8arch.entity)) :=
  c8_scope_parent_chain c8ctx ⟨0⟩ ⟨0⟩ c8entity c8arch [] [] ⟨0⟩ ⟨1⟩
    [(ScopeRef.CtxItems ⟨0⟩, ⟨none, [ScopeRef.CtxItems ⟨0⟩], []⟩)]
    [(ScopeRef.CtxItems ⟨1⟩,
      ⟨some (ScopeRef.Entity ⟨0⟩), [ScopeRef.CtxItems ⟨1⟩], []⟩)]
    [] [] rfl rfl rfl rfl

theorem defsInsert_snd (m : Defs) (k : ResName) (v : List (Spanned Def)) :
    (defsInsert m k v).2 = alookup k m := by
  induction m with
  | nil => simp [defsInsert, alookup]
  | cons hd tl ih =>
    obtain ⟨k0, v0⟩ := hd
    by_cases h : k = k0 <;> simp [defsInsert, alookup, h, ih]

theorem entryGet_defsInsert (m : Defs) (k n : ResName) (v : List (Spanned Def)) :
    entryGet (defsInsert m k v).1 n = if n = k then v else entryGet m n := by
  induction m with
  | nil =>
    by_cases h : n = k <;> simp [defsInsert, entryGet, alookup, h]
  | cons hd tl ih =>
    obtain ⟨k0, v0⟩ := hd
    by_cases h0 : k = k0
    · subst h0
      by_cases h2 : n = k <;> simp [defsInsert, entryGet, alookup, h2]
    · by_cases h2 : n = k0
      · subst h2
        have hnk : ¬(n = k) := fun hh => h0 hh.symm
        simp [defsInsert, entryGet, alookup, h0, hnk]
      · simp only [defsInsert, if_neg h0]
        have := ih
        simp [entryGet, alookup, h2] at this ⊢
        exact this

theorem entries_nonempty_defsExtend (m : Defs) (n : ResName)
    (ds : List (Spanned Def)) (hm : ∀ e ∈ m, e.2 ≠ []) (hds : ds ≠ []) :
    ∀ e ∈ defsExtend m n ds, e.2 ≠ [] := by
  induction m with
  | nil =>
    intro e he
    simp [defsExtend] at he
    subst he
    exact hds
  | cons hd tl ih =>
    obtain ⟨n0, v⟩ := hd
    intro e he
    by_cases h : n = n0
    · subst h
      simp [defsExtend] at he
      rcases he with he | he
      · subst he
        intro happ
        exact hds (List.append_eq_nil.mp happ).2
      · exact hm e (List.mem_cons_of_mem _ he)
    · simp [defsExtend, h] at he
      rcases he with he | he
      · subst he
        exact hm (n0, v) (List.mem_cons_self _ _)
      · exact ih (fun e2 he2 => hm e2 (List.mem_cons_of_mem _ he2)) e he

theorem entries_nonempty_defsInsert (m : Defs) (n : ResName)
    (v : List (Spanned Def)) (hm : ∀ e ∈ m, e.2 ≠ []) (hv : v ≠ []) :
    ∀ e ∈ (defsInsert m n v).1, e.2 ≠ [] := by
  induction m with
  | nil =>
    intro e he
    simp [defsInsert] at he
    subst he
    exact hv
  | cons hd tl ih =>
    obtain ⟨k0, v0⟩ := hd
    intro e he
    by_cases h : n = k0
    · subst h
      simp [defsInsert] at he
      rcases he with he | he
      · subst he
        exact hv
      · exact hm e (List.mem_cons_of_mem _ he)
    · simp [defsInsert, h] at he
      rcases he with he | he
      · subst he
        exact hm (k0, v0) (List.mem_cons_self _ _)
      · exact ih (fun e2 he2 => hm e2 (List.mem_cons_of_mem _ he2)) e he

theorem alookup_none_of_nonempty {m : Defs} {n : ResName}
    (hm : ∀ e ∈ m, e.2 ≠ []) (h : entryGet m n = []) : alookup n m = none := by
  cases hl : alookup n m with
  | none => rfl
  | some v =>
    exfalso
    have hv : v = [] := by
      have : entryGet m n = v := by simp [entryGet, hl]
      rw [this] at h
      exact h
    exact hm (n, v) (alookup_mem hl) (by simpa using hv)

theorem entryGet_foldl_pairs (l : List (Spanned ResName × Def)) (m : Defs)
    (n : ResName) :
    entryGet (l.foldl (fun acc p => defsPush acc p.1.value ⟨p.2, p.1.span⟩) m) n =
      entryGet m n ++
        (l.filter (fun p => p.1.value = n)).map
          (fun p => (⟨p.2, p.1.span⟩ : Spanned Def)) := by
  induction l generalizing m with
  | nil => simp
  | cons p rest ih =>
    rw [List.foldl_cons, ih, entryGet_defsPush]
    by_cases h : p.1.value = n
    · rw [if_pos h.symm, List.filter_cons_of_pos (by simpa using h)]
      simp
    · rw [if_neg (fun hh => h hh.symm), List.filter_cons_of_neg (by simpa using h)]

theorem entries_nonempty_foldl_pairs (l : List (Spanned ResName × Def))
    (m : Defs) (hm : ∀ e ∈ m, e.2 ≠ []) :
    ∀ e ∈ l.foldl (fun acc p => defsPush acc p.1.value ⟨p.2, p.1.span⟩) m,
      e.2 ≠ [] := by
  induction l generalizing m with
  | nil => exact hm
  | cons p rest ih =>
    rw [List.foldl_cons]
    exact ih _ (entries_nonempty_defsExtend m p.1.value [⟨p.2, p.1.span⟩] hm
      (by simp))

/-- A run of the package-definitions registration loop over entries that are
all enumeration literals only pushes onto the table: no failure is recorded
and no diagnostic is emitted. -/
theorem foldl_pkgDefStep_enum (l : List (Spanned ResName × Def))
    (st : PkgDefsState)
    (hall : ∀ p ∈ l, ∃ er : EnumRef, p.2 = Def.Enum er) :
    l.foldl pkgDefStep st =
      { st with defs :=
          l.foldl (fun acc p => defsPush acc p.1.value ⟨p.2, p.1.span⟩) st.defs } := by
  induction l generalizing st with
  | nil => rfl
  | cons p rest ih =>
    obtain ⟨er, her⟩ := hall p (List.mem_cons_self _ _)
    rw [List.foldl_cons, List.foldl_cons]
    have hstep : pkgDefStep st p =
        { st with defs := defsPush st.defs p.1.value ⟨p.2, p.1.span⟩ } := by
      unfold pkgDefStep
      rw [her]
    rw [hstep]
    exact ih _ (fun q hq => hall q (List.mem_cons_of_mem _ hq))

theorem snd_mem_of_mem_enumFrom {α : Type} :
    ∀ {l : List α} {i : Nat} {q : Nat × α}, q ∈ l.enumFrom i → q.2 ∈ l := by
  intro l
  induction l with
  | nil => intro i q hq; simp [List.enumFrom] at hq
  | cons a as ih =>
    intro i q hq
    simp only [List.enumFrom, List.mem_cons] at hq
    rcases hq with hq | hq
    · subst hq
      simp
    · exact List.mem_cons_of_mem _ (ih hq)

theorem snd_mem_of_mem_enum {α : Type} {l : List α} {q : Nat × α}
    (h : q ∈ l.enum) : q.2 ∈ l :=
  snd_mem_of_mem_enumFrom h

theorem exists_mem_enumFrom {α : Type} {a : α} :
    ∀ {l : List α}, a ∈ l → ∀ i : Nat, ∃ j : Nat, (j, a) ∈ l.enumFrom i := by
  intro l
  induction l with
  | nil => intro h; simp at h
  | cons b bs ih =>
    intro h i
    rcases List.mem_cons.mp h with h | h
    · subst h
      exact ⟨i, by simp [List.enumFrom]⟩
    · obtain ⟨j, hj⟩ := ih h (i + 1)
      exact ⟨j, by simp [List.enumFrom, hj]⟩

theorem exists_mem_enum {α : Type} {a : α} {l : List α} (h : a ∈ l) :
    ∃ j : Nat, (j, a) ∈ l.enum :=
  exists_mem_enumFrom h 0

/-- The key under which an enumeration literal entry is registered is the
literal's key. -/
theorem enumLitEntry_key (t : TypeDeclRef) (q : Nat × EnumLit) :
    (enumLitEntry t q).1.value ∈ litKeys [q.2] := by
  cases hq : q.2 with
  | Ident n => simp [enumLitEntry, hq, litKeys]
  | Char ch => simp [enumLitEntry, hq, litKeys]

theorem enumEntriesAt_ne_nil {t : TypeDeclRef} {lits : List EnumLit}
    {k : ResName} (hk : k ∈ litKeys lits) : enumEntriesAt t lits k ≠ [] := by
  unfold litKeys at hk
  obtain ⟨lit, hlit, hkey⟩ := List.mem_map.mp hk
  obtain ⟨j, hj⟩ := exists_mem_enum hlit
  have hpmem : enumLitEntry t (j, lit) ∈ lits.enum.map (enumLitEntry t) :=
    List.mem_map_of_mem _ hj
  have hpval : (enumLitEntry t (j, lit)).1.value = k := by
    cases lit with
    | Ident n => simpa [enumLitEntry] using hkey
    | Char ch => simpa [enumLitEntry] using hkey
  unfold enumEntriesAt
  apply List.ne_nil_of_mem
    (a := (⟨(enumLitEntry t (j, lit)).2, (enumLitEntry t (j, lit)).1.span⟩ :
      Spanned Def))
  exact List.mem_map_of_mem _ (List.mem_filter.mpr ⟨hpmem, by simp [hpval]⟩)

/-- C6: a package declaring two enumeration types that both declare a literal
with the same name succeeds; both literal definitions are accumulated under
that name in declaration order and no duplicate-definition diagnostic is
emitted.  (The other names of the two type declarations are assumed not to
collide, so that the only shared name is the overloadable literal.) -/
theorem c6_overload_accumulation (c : Ctx) (pid : PkgDeclRef) (pkg : Package)
    (t1 t2 : TypeDeclRef) (h1 h2 : TypeDecl) (sp1 sp2 : Span)
    (lits1 lits2 : List EnumLit) (k : ResName)
    (hpkg : c.hir_pkg pid = .ok pkg)
    (hdecls : pkg.decls = [DeclInPkgRef.Ty t1, DeclInPkgRef.Ty t2])
    (ht1 : c.hir_type t1 = .ok h1)
    (ht2 : c.hir_type t2 = .ok h2)
    (hd1 : h1.data = some (TypeData.Enum sp1 lits1))
    (hd2 : h2.data = some (TypeData.Enum sp2 lits2))
    (hne : h2.name.value ≠ h1.name.value)
    (hnl : ResName.ident h2.name.value ∉ litKeys lits1)
    (hk1 : k ∈ litKeys lits1) (hk2 : k ∈ litKeys lits2)
    (hkt1 : k ≠ ResName.ident h1.name.value)
    (hkt2 : k ≠ ResName.ident h2.name.value) :
    ∃ m : Defs, make_defs_pkg c pid = (Outcome.ok m, []) ∧
      entryGet m k = enumEntriesAt t1 lits1 k ++ enumEntriesAt t2 lits2 k ∧
      enumEntriesAt t1 lits1 k ≠ [] ∧ enumEntriesAt t2 lits2 k ≠ [] := by
  have hT1 : declNamesAndDefs c (DeclInPkgRef.Ty t1) =
      .ok ((⟨ResName.ident h1.name.value, h1.name.span⟩, Def.Ty t1) ::
        lits1.enum.map (enumLitEntry t1)) := by
    simp [declNamesAndDefs, ht1, typeDeclEntries, hd1]
  have hT2 : declNamesAndDefs c (DeclInPkgRef.Ty t2) =
      .ok ((⟨ResName.ident h2.name.value, h2.name.span⟩, Def.Ty t2) ::
        lits2.enum.map (enumLitEntry t2)) := by
    simp [declNamesAndDefs, ht2, typeDeclEntries, hd2]
  have hall1 : ∀ p ∈ lits1.enum.map (enumLitEntry t1),
      ∃ er : EnumRef, p.2 = Def.Enum er := by
    intro p hp
    obtain ⟨q, hq, rfl⟩ := List.mem_map.mp hp
    cases hq2 : q.2 with
    | Ident n => exact ⟨⟨t1, q.1⟩, by simp [enumLitEntry, hq2]⟩
    | Char ch => exact ⟨⟨t1, q.1⟩, by simp [enumLitEntry, hq2]⟩
  have hall2 : ∀ p ∈ lits2.enum.map (enumLitEntry t2),
      ∃ er : EnumRef, p.2 = Def.Enum er := by
    intro p hp
    obtain ⟨q, hq, rfl⟩ := List.mem_map.mp hp
    cases hq2 : q.2 with
    | Ident n => exact ⟨⟨t2, q.1⟩, by simp [enumLitEntry, hq2]⟩
    | Char ch => exact ⟨⟨t2, q.1⟩, by simp [enumLitEntry, hq2]⟩
  have hstep1 : pkgDefStep ⟨[], false, []⟩
      (⟨ResName.ident h1.name.value, h1.name.span⟩, Def.Ty t1) =
      ⟨[(ResName.ident h1.name.value, [⟨Def.Ty t1, h1.name.span⟩])],
        false, []⟩ := by
    rfl
  have hst1 : ((⟨ResName.ident h1.name.value, h1.name.span⟩, Def.Ty t1) ::
      lits1.enum.map (enumLitEntry t1)).foldl pkgDefStep ⟨[], false, []⟩ =
      ⟨(lits1.enum.map (enumLitEntry t1)).foldl
          (fun acc p => defsPush acc p.1.value ⟨p.2, p.1.span⟩)
          [(ResName.ident h1.name.value, [⟨Def.Ty t1, h1.name.span⟩])],
        false, []⟩ := by
    rw [List.foldl_cons, hstep1, foldl_pkgDefStep_enum _ _ hall1]
  have hkey2ne : ¬(ResName.ident h2.name.value = ResName.ident h1.name.value) := by
    simp [ResName.ident.injEq]
    exact hne
  have hfilterL1key2 : (lits1.enum.map (enumLitEntry t1)).filter
      (fun p => p.1.value = ResName.ident h2.name.value) = [] := by
    rw [List.filter_eq_nil_iff]
    intro p hp
    simp only [decide_eq_true_eq]
    intro heq
    obtain ⟨q, hq, rfl⟩ := List.mem_map.mp hp
    have h2l : q.2 ∈ lits1 := snd_mem_of_mem_enum hq
    have hmemk : (enumLitEntry t1 q).1.value ∈ litKeys lits1 := by
      unfold litKeys
      cases hq2 : q.2 with
      | Ident n =>
        exact List.mem_map.mpr ⟨q.2, h2l, by simp [enumLitEntry, hq2]⟩
      | Char ch =>
        exact List.mem_map.mpr ⟨q.2, h2l, by simp [enumLitEntry, hq2]⟩
    rw [heq] at hmemk
    exact hnl hmemk
  have hD1nonempty : ∀ e ∈ (lits1.enum.map (enumLitEntry t1)).foldl
      (fun acc p => defsPush acc p.1.value ⟨p.2, p.1.span⟩)
      [(ResName.ident h1.name.value, [⟨Def.Ty t1, h1.name.span⟩])], e.2 ≠ [] := by
    apply entries_nonempty_foldl_pairs
    intro e he
    simp at he
    subst he
    simp
  have hgetD1key2 : entryGet ((lits1.enum.map (enumLitEntry t1)).foldl
      (fun acc p => defsPush acc p.1.value ⟨p.2, p.1.span⟩)
      [(ResName.ident h1.name.value, [⟨Def.Ty t1, h1.name.span⟩])])
      (ResName.ident h2.name.value) = [] := by
    rw [entryGet_foldl_pairs, hfilterL1key2, List.map_nil, List.append_nil]
    simp [entryGet, alookup, hkey2ne]
  have halookupD1 : alookup (ResName.ident h2.name.value)
      ((lits1.enum.map (enumLitEntry t1)).foldl
        (fun acc p => defsPush acc p.1.value ⟨p.2, p.1.span⟩)
        [(ResName.ident h1.name.value, [⟨Def.Ty t1, h1.name.span⟩])]) = none :=
    alookup_none_of_nonempty hD1nonempty hgetD1key2
  have hstep2 : pkgDefStep
      ⟨(lits1.enum.map (enumLitEntry t1)).foldl
          (fun acc p => defsPush acc p.1.value ⟨p.2, p.1.span⟩)
          [(ResName.ident h1.name.value, [⟨Def.Ty t1, h1.name.span⟩])],
        false, []⟩
      (⟨ResName.ident h2.name.value, h2.name.span⟩, Def.Ty t2) =
      ⟨(defsInsert ((lits1.enum.map (enumLitEntry t1)).foldl
          (fun acc p => defsPush acc p.1.value ⟨p.2, p.1.span⟩)
          [(ResName.ident h1.name.value, [⟨Def.Ty t1, h1.name.span⟩])])
          (ResName.ident h2.name.value) [⟨Def.Ty t2, h2.name.span⟩]).1,
        false, []⟩ := by
    unfold pkgDefStep
    dsimp only
    rw [defsInsert_snd, halookupD1]
  have hst2 : ((⟨ResName.ident h2.name.value, h2.name.span⟩, Def.Ty t2) ::
      lits2.enum.map (enumLitEntry t2)).foldl pkgDefStep
      ⟨(lits1.enum.map (enumLitEntry t1)).foldl
          (fun acc p => defsPush acc p.1.value ⟨p.2, p.1.span⟩)
          [(ResName.ident h1.name.value, [⟨Def.Ty t1, h1.name.span⟩])],
        false, []⟩ =
      ⟨(lits2.enum.map (enumLitEntry t2)).foldl
          (fun acc p => defsPush acc p.1.value ⟨p.2, p.1.span⟩)
          ((defsInsert ((lits1.enum.map (enumLitEntry t1)).foldl
            (fun acc p => defsPush acc p.1.value ⟨p.2, p.1.span⟩)
            [(ResName.ident h1.name.value, [⟨Def.Ty t1, h1.name.span⟩])])
            (ResName.ident h2.name.value) [⟨Def.Ty t2, h2.name.span⟩]).1),
        false, []⟩ := by
    rw [List.foldl_cons, hstep2, foldl_pkgDefStep_enum _ _ hall2]
  have hloop : pkgDeclsLoop c [DeclInPkgRef.Ty t1, DeclInPkgRef.Ty t2]
      ⟨[], false, []⟩ =
      .ok ⟨(lits2.enum.map (enumLitEntry t2)).foldl
          (fun acc p => defsPush acc p.1.value ⟨p.2, p.1.span⟩)
          ((defsInsert ((lits1.enum.map (enumLitEntry t1)).foldl
            (fun acc p => defsPush acc p.1.value ⟨p.2, p.1.span⟩)
            [(ResName.ident h1.name.value, [⟨Def.Ty t1, h1.name.span⟩])])
            (ResName.ident h2.name.value) [⟨Def.Ty t2, h2.name.span⟩]).1),
        false, []⟩ := by
    rw [pkgDeclsLoop, hT1]
    dsimp only
    rw [hst1]
    rw [pkgDeclsLoop, hT2]
    dsimp only
    rw [hst2]
    rw [pkgDeclsLoop]
  refine ⟨(lits2.enum.map (enumLitEntry t2)).foldl
      (fun acc p => defsPush acc p.1.value ⟨p.2, p.1.span⟩)
      ((defsInsert ((lits1.enum.map (enumLitEntry t1)).foldl
        (fun acc p => defsPush acc p.1.value ⟨p.2, p.1.span⟩)
        [(ResName.ident h1.name.value, [⟨Def.Ty t1, h1.name.span⟩])])
        (ResName.ident h2.name.value) [⟨Def.Ty t2, h2.name.span⟩]).1),
    ?_, ?_, enumEntriesAt_ne_nil hk1, enumEntriesAt_ne_nil hk2⟩
  · unfold make_defs_pkg
    rw [hpkg]
    dsimp only
    rw [hdecls, hloop]
    rfl
  · rw [entryGet_foldl_pairs, entryGet_defsInsert, if_neg hkt2,
      entryGet_foldl_pairs]
    have hbase : entryGet
        [(ResName.ident h1.name.value, [⟨Def.Ty t1, h1.name.span⟩])] k = [] := by
      simp [entryGet, alookup, hkt1]
    rw [hbase]
    simp [enumEntriesAt]

/-- C6 witness input: `T1` with literals `A`, `B` followed by `T2` with
literal `A`. -/
theorem c6_overload_accumulation_witness :
    ∃ m : Defs, make_defs_pkg c6ctx ⟨0⟩ = (Outcome.ok m, []) ∧
      entryGet m (ResName.ident "A") =
        enumEntriesAt ⟨0⟩ [EnumLit.Ident ⟨"A", ⟨3, 4⟩⟩, EnumLit.Ident ⟨"B", ⟨5, 6⟩⟩]
          (ResName.ident "A") ++
        enumEntriesAt ⟨1⟩ [EnumLit.Ident ⟨"A", ⟨9, 10⟩⟩] (ResName.ident "A") ∧
      enumEntriesAt ⟨0⟩ [EnumLit.Ident ⟨"A", ⟨3, 4⟩⟩, EnumLit.Ident ⟨"B", ⟨5, 6⟩⟩]
        (ResName.ident "A") ≠ [] ∧
      enumEntriesAt ⟨1⟩ [EnumLit.Ident ⟨"A", ⟨9, 10⟩⟩] (ResName.ident "A") ≠ [] :=
  c6_overload_accumulation c6ctx ⟨0⟩ c6pkg ⟨0⟩ ⟨1⟩ c6t1 c6t2 ⟨0, 0⟩ ⟨0, 0⟩
    [EnumLit.Ident ⟨"A", ⟨3, 4⟩⟩, EnumLit.Ident ⟨"B", ⟨5, 6⟩⟩]
    [EnumLit.Ident ⟨"A", ⟨9, 10⟩⟩] (ResName.ident "A")
    rfl rfl rfl rfl rfl rfl (by decide) (by decide) (by decide) (by decide)
    (by decide) (by decide)

/-- The context-items definitions loop only inspects library clauses, so it
equals the flat fold over all library-clause identifiers. -/
theorem ctx_items_foldl_flatten (c : Ctx) (items : List CtxItem)
    (st : CtxDefsState) :
    items.foldl (ctxItemStep c) st =
      (libClauseIdents items).foldl (ctxLibIdentStep c) st := by
  induction items generalizing st with
  | nil => rfl
  | cons it rest ih =>
    cases it with
    | LibClause ns =>
      rw [List.foldl_cons,
        show ctxItemStep c st (CtxItem.LibClause ns) =
          ns.value.foldl (ctxLibIdentStep c) st from rfl,
        ih,
        show libClauseIdents (CtxItem.LibClause ns :: rest) =
          ns.value ++ libClauseIdents rest from rfl,
        List.foldl_append]
    | UseClause ns =>
      rw [List.foldl_cons, ih]
      rfl

theorem ctxLibIdentStep_fails_mono (c : Ctx) (st : CtxDefsState)
    (nm : Spanned Name) (h : st.has_fails = true) :
    (ctxLibIdentStep c st nm).has_fails = true := by
  unfold ctxLibIdentStep
  cases c.lib_names nm.value with
  | none => rfl
  | some lid =>
    by_cases he : (entryGet st.defs (ResName.ident nm.value)).isEmpty = true
    · simp [he, h]
    · simp [he]

theorem ctxLibIdentStep_foldl_fails_mono (c : Ctx) (l : List (Spanned Name))
    (st : CtxDefsState) (h : st.has_fails = true) :
    (l.foldl (ctxLibIdentStep c) st).has_fails = true := by
  induction l generalizing st with
  | nil => exact h
  | cons nm rest ih =>
    rw [List.foldl_cons]
    exact ih _ (ctxLibIdentStep_fails_mono c st nm h)

theorem ctxLibIdentStep_entry_mono (c : Ctx) (st : CtxDefsState)
    (nm : Spanned Name) (rn : ResName)
    (h : entryGet st.defs rn ≠ []) :
    entryGet (ctxLibIdentStep c st nm).defs rn ≠ [] := by
  unfold ctxLibIdentStep
  cases c.lib_names nm.value with
  | none => exact h
  | some lid =>
    by_cases he : (entryGet st.defs (ResName.ident nm.value)).isEmpty = true
    · simp only [he, if_true]
      rw [entryGet_defsPush]
      by_cases hrn : rn = ResName.ident nm.value
      · rw [if_pos hrn]
        simp
      · rw [if_neg hrn]
        exact h
    · simp only [he]
      simp [h]

theorem ctxLibIdentStep_fails_diags (c : Ctx) (st : CtxDefsState)
    (nm : Spanned Name) (h : st.has_fails = true → st.diags ≠ []) :
    (ctxLibIdentStep c st nm).has_fails = true →
      (ctxLibIdentStep c st nm).diags ≠ [] := by
  unfold ctxLibIdentStep
  cases c.lib_names nm.value with
  | none => intro _; simp
  | some lid =>
    by_cases he : (entryGet st.defs (ResName.ident nm.value)).isEmpty = true
    · simp only [he, if_true]
      exact h
    · simp only [he]
      intro _
      simp

theorem ctxLibIdentStep_foldl_fails_diags (c : Ctx) (l : List (Spanned Name))
    (st : CtxDefsState) (h : st.has_fails = true → st.diags ≠ []) :
    (l.foldl (ctxLibIdentStep c) st).has_fails = true →
      (l.foldl (ctxLibIdentStep c) st).diags ≠ [] := by
  induction l generalizing st with
  | nil => exact h
  | cons nm rest ih =>
    rw [List.foldl_cons]
    exact ih _ (ctxLibIdentStep_fails_diags c st nm h)

/-- Success run of the library-clause binding loop: with every name in the
registry and no duplicate names, no failure is recorded, no diagnostic is
emitted, each name is bound to its library, and other entries are
untouched. -/
theorem ctxLibIdentStep_foldl_success (c : Ctx) (l : List (Spanned Name))
    (st : CtxDefsState)
    (hf : st.has_fails = false) (hd : st.diags = [])
    (hreg : ∀ nm ∈ l, (c.lib_names nm.value).isSome = true)
    (hfresh : ∀ nm ∈ l, entryGet st.defs (ResName.ident nm.value) = [])
    (hnodup : (l.map (fun nm => nm.value)).Nodup) :
    (l.foldl (ctxLibIdentStep c) st).has_fails = false ∧
    (l.foldl (ctxLibIdentStep c) st).diags = [] ∧
    (∀ nm ∈ l, ∃ lid : LibRef, c.lib_names nm.value = some lid ∧
      entryGet (l.foldl (ctxLibIdentStep c) st).defs (ResName.ident nm.value) =
        [⟨Def.Lib lid, nm.span⟩]) ∧
    (∀ rn : ResName, (∀ nm ∈ l, rn ≠ ResName.ident nm.value) →
      entryGet (l.foldl (ctxLibIdentStep c) st).defs rn = entryGet st.defs rn) := by
  induction l generalizing st with
  | nil => exact ⟨hf, hd, by simp, fun rn _ => rfl⟩
  | cons nm rest ih =>
    have hsome := hreg nm (List.mem_cons_self _ _)
    obtain ⟨lid, hlid⟩ := Option.isSome_iff_exists.mp hsome
    have hemp : entryGet st.defs (ResName.ident nm.value) = [] :=
      hfresh nm (List.mem_cons_self _ _)
    have hstep : ctxLibIdentStep c st nm =
        { st with defs := (defsPush st.defs (ResName.ident nm.value)
            (Spanned.mk (Def.Lib lid) nm.span)) } := by
      unfold ctxLibIdentStep
      rw [hlid]
      simp [hemp]
    rw [List.foldl_cons, hstep]
    have hnodup2 : nm.value ∉ rest.map (fun q => q.value) ∧
        (rest.map (fun q => q.value)).Nodup := by
      rw [List.map_cons, List.nodup_cons] at hnodup
      exact hnodup
    have hvalnotin : nm.value ∉ rest.map (fun q => q.value) := hnodup2.1
    have ihres := ih { st with defs := (defsPush st.defs (ResName.ident nm.value)
        (Spanned.mk (Def.Lib lid) nm.span)) }
      hf hd
      (fun q hq => hreg q (List.mem_cons_of_mem _ hq))
      (by
        intro q hq
        rw [entryGet_defsPush]
        have hne : ¬(ResName.ident q.value = ResName.ident nm.value) := by
          simp only [ResName.ident.injEq]
          intro heq
          exact hvalnotin (heq ▸ List.mem_map_of_mem (fun q => q.value) hq)
        rw [if_neg hne]
        exact hfresh q (List.mem_cons_of_mem _ hq))
      hnodup2.2
    refine ⟨ihres.1, ihres.2.1, ?_, ?_⟩
    · intro q hq
      rcases List.mem_cons.mp hq with hq | hq
      · subst hq
        refine ⟨lid, hlid, ?_⟩
        rw [ihres.2.2.2 (ResName.ident q.value) ?_]
        · rw [entryGet_defsPush, if_pos rfl, hemp]
          rfl
        · intro q2 hq2 heq
          have hv := ResName.ident.inj heq
          exact hvalnotin (by rw [hv]; exact List.mem_map_of_mem (fun r => r.value) hq2)
      · exact ihres.2.2.1 q hq
    · intro rn hrn
      rw [ihres.2.2.2 rn (fun q hq => hrn q (List.mem_cons_of_mem _ hq))]
      rw [entryGet_defsPush, if_neg (hrn nm (List.mem_cons_self _ _))]

/-- Failure run of the library-clause binding loop: an unknown library name,
a duplicate name, or a name already bound in the table forces the failure
flag. -/
theorem ctxLibIdentStep_foldl_fail (c : Ctx) (l : List (Spanned Name))
    (st : CtxDefsState)
    (hcase : (∃ nm ∈ l, c.lib_names nm.value = none) ∨
      ¬(l.map (fun nm => nm.value)).Nodup ∨
      (∃ nm ∈ l, (c.lib_names nm.value).isSome = true ∧
        entryGet st.defs (ResName.ident nm.value) ≠ [])) :
    (l.foldl (ctxLibIdentStep c) st).has_fails = true := by
  induction l generalizing st with
  | nil =>
    exfalso
    rcases hcase with ⟨nm, hnm, _⟩ | h | ⟨nm, hnm, _⟩
    · simp at hnm
    · simp at h
    · simp at hnm
  | cons nm rest ih =>
    rw [List.foldl_cons]
    cases hnm : c.lib_names nm.value with
    | none =>
      apply ctxLibIdentStep_foldl_fails_mono
      unfold ctxLibIdentStep
      rw [hnm]
    | some lid =>
      by_cases he : entryGet st.defs (ResName.ident nm.value) = []
      · have hstep : ctxLibIdentStep c st nm =
            { st with defs := (defsPush st.defs (ResName.ident nm.value)
                (Spanned.mk (Def.Lib lid) nm.span)) } := by
          unfold ctxLibIdentStep
          rw [hnm]
          simp [he]
        rw [hstep]
        apply ih
        rcases hcase with ⟨q, hq, hqn⟩ | hnd | ⟨q, hq, hqs, hqe⟩
        · rcases List.mem_cons.mp hq with hq | hq
          · subst hq
            rw [hnm] at hqn
            exact absurd hqn (by simp)
          · exact Or.inl ⟨q, hq, hqn⟩
        · rw [List.map_cons, List.nodup_cons] at hnd
          push_neg at hnd
          by_cases hmem : nm.value ∈ rest.map (fun q => q.value)
          · obtain ⟨q, hq, hqv⟩ := List.mem_map.mp hmem
            refine Or.inr (Or.inr ⟨q, hq, ?_, ?_⟩)
            · rw [hqv, hnm]
              rfl
            · rw [entryGet_defsPush]
              have : ResName.ident q.value = ResName.ident nm.value := by
                rw [hqv]
              rw [if_pos this]
              simp
          · exact Or.inr (Or.inl (hnd hmem))
        · rcases List.mem_cons.mp hq with hq | hq
          · subst hq
            exact absurd he hqe
          · refine Or.inr (Or.inr ⟨q, hq, hqs, ?_⟩)
            have hstepdefs : entryGet (defsPush st.defs (ResName.ident nm.value)
                (Spanned.mk (Def.Lib lid) nm.span)) (ResName.ident q.value) ≠ [] := by
              rw [entryGet_defsPush]
              by_cases hrq : ResName.ident q.value = ResName.ident nm.value
              · rw [if_pos hrq]
                simp
              · rw [if_neg hrq]
                exact hqe
            exact hstepdefs
      · apply ctxLibIdentStep_foldl_fails_mono
        unfold ctxLibIdentStep
        rw [hnm]
        have : (entryGet st.defs (ResName.ident nm.value)).isEmpty = false := by
          rw [List.isEmpty_eq_false]
          exact he
        simp [this]

/-- C9: the context-items definitions query binds each library-clause name
found in the registry to that library; it fails (after emitting a
diagnostic) when some clause names an unknown library or binds a name twice;
when every clause resolves uniquely it succeeds with one binding per named
library and no diagnostic. -/
theorem c9_ctx_items_lib_clauses (c : Ctx) (id : CtxItemsRef) :
    (((∀ nm ∈ libClauseIdents (c.ast_ctx_items id),
        (c.lib_names nm.value).isSome = true) ∧
      ((libClauseIdents (c.ast_ctx_items id)).map (fun nm => nm.value)).Nodup) →
      ∃ m : Defs, make_defs_ctx_items c id = (Outcome.ok m, []) ∧
        ∀ nm ∈ libClauseIdents (c.ast_ctx_items id), ∃ lid : LibRef,
          c.lib_names nm.value = some lid ∧
          entryGet m (ResName.ident nm.value) = [⟨Def.Lib lid, nm.span⟩]) ∧
    (((∃ nm ∈ libClauseIdents (c.ast_ctx_items id),
        c.lib_names nm.value = none) ∨
      ¬((libClauseIdents (c.ast_ctx_items id)).map (fun nm => nm.value)).Nodup) →
      (make_defs_ctx_items c id).1 = Outcome.failed ∧
        (make_defs_ctx_items c id).2 ≠ []) := by
  have hfold : (c.ast_ctx_items id).foldl (ctxItemStep c) ⟨[], false, []⟩ =
      (libClauseIdents (c.ast_ctx_items id)).foldl (ctxLibIdentStep c)
        ⟨[], false, []⟩ :=
    ctx_items_foldl_flatten c (c.ast_ctx_items id) ⟨[], false, []⟩
  constructor
  · rintro ⟨hreg, hnodup⟩
    have hs := ctxLibIdentStep_foldl_success c
      (libClauseIdents (c.ast_ctx_items id)) ⟨[], false, []⟩ rfl rfl hreg
      (fun nm _ => rfl) hnodup
    refine ⟨((libClauseIdents (c.ast_ctx_items id)).foldl (ctxLibIdentStep c)
      ⟨[], false, []⟩).defs, ?_, hs.2.2.1⟩
    unfold make_defs_ctx_items
    dsimp only
    rw [hfold, hs.1, hs.2.1]
    rfl
  · intro hbad
    have hfail : ((libClauseIdents (c.ast_ctx_items id)).foldl
        (ctxLibIdentStep c) ⟨[], false, []⟩).has_fails = true := by
      apply ctxLibIdentStep_foldl_fail
      rcases hbad with ⟨nm, hnm, hn⟩ | hnd
      · exact Or.inl ⟨nm, hnm, hn⟩
      · exact Or.inr (Or.inl hnd)
    have hdne : ((libClauseIdents (c.ast_ctx_items id)).foldl
        (ctxLibIdentStep c) ⟨[], false, []⟩).diags ≠ [] := by
      apply ctxLibIdentStep_foldl_fails_diags c _ _ ?_ hfail
      intro h
      simp at h
    constructor
    · unfold make_defs_ctx_items
      dsimp only
      rw [hfold, hfail]
      rfl
    · unfold make_defs_ctx_items
      dsimp only
      rw [hfold, hfail]
      exact hdne

/-- C9 witness input: context-item list 0 names the known library `work`,
context-item list 1 names the unknown library `nosuch`. -/
theorem c9_ctx_items_lib_clauses_witness :
    (∃ m : Defs, make_defs_ctx_items c9ctx ⟨0⟩ = (Outcome.ok m, []) ∧
      ∀ nm ∈ libClauseIdents (c9ctx.ast_ctx_items ⟨0⟩), ∃ lid : LibRef,
        c9ctx.lib_names nm.value = some lid ∧
        entryGet m (ResName.ident nm.value) = [⟨Def.Lib lid, nm.span⟩]) ∧
    ((make_defs_ctx_items c9ctx ⟨1⟩).1 = Outcome.failed ∧
      (make_defs_ctx_items c9ctx ⟨1⟩).2 ≠ []) :=
  ⟨(c9_ctx_items_lib_clauses c9ctx ⟨0⟩).1 ⟨by decide, by decide⟩,
   (c9_ctx_items_lib_clauses c9ctx ⟨1⟩).2
     (Or.inl ⟨⟨"nosuch", ⟨1, 7⟩⟩, by decide, by decide⟩)⟩

theorem getLast?_ne_none {α : Type} {l : List α} (h : l ≠ []) :
    ∃ a : α, l.getLast? = some a := by
  rcases List.eq_nil_or_concat l with rfl | ⟨L, b, rfl⟩
  · exact absurd rfl h
  · exact ⟨b, by rw [List.concat_eq_append]; exact List.getLast?_concat L⟩

/-- With a resolver that never returns an empty definition list, one
use-clause name step either succeeds or propagates a failure — it never
panics. -/
theorem useNameStep_shape (c : Ctx) (id : CtxItemsRef) (st : CtxScopeState)
    (name : CompoundName)
    (hres : ∀ (nm : CompoundName) (sr : ScopeRef) (b : Bool) rn ds vs tl,
      c.resolve_compound_name nm sr b = .ok (rn, ds, vs, tl) → ds ≠ []) :
    (∃ s, useNameStep c id st name = LoopOut.ok s) ∨
    (∃ s, useNameStep c id st name = LoopOut.failed s) := by
  unfold useNameStep
  cases hr : c.resolve_compound_name name (ScopeRef.CtxItems id) true with
  | error e => exact Or.inr ⟨st, rfl⟩
  | ok t =>
    obtain ⟨rn, ds, vs, tl⟩ := t
    have hds : ds ≠ [] := hres name (ScopeRef.CtxItems id) true rn ds vs tl hr
    dsimp only
    cases hh : tl.head? with
    | none =>
      have htl : tl = [] := by
        cases tl with
        | nil => rfl
        | cons a as => simp at hh
      subst htl
      exact Or.inl ⟨_, rfl⟩
    | some np =>
      cases np with
      | Select n =>
        dsimp only
        by_cases hlen : 0 < tl.length
        · rw [if_pos hlen]
          exact Or.inl ⟨_, rfl⟩
        · rw [if_neg hlen]
          exact Or.inl ⟨_, rfl⟩
      | SelectAll sa =>
        obtain ⟨d, hlast⟩ := getLast?_ne_none hds
        rw [hlast]
        obtain ⟨dv, dsp⟩ := d
        cases dv with
        | Pkg p =>
          dsimp only
          by_cases hlen : 0 < tl.tail.length
          · rw [if_pos hlen]
            exact Or.inl ⟨_, rfl⟩
          · rw [if_neg hlen]
            exact Or.inl ⟨_, rfl⟩
        | Lib i => exact Or.inl ⟨_, rfl⟩
        | Entity i => exact Or.inl ⟨_, rfl⟩
        | Cfg i => exact Or.inl ⟨_, rfl⟩
        | PkgInst i => exact Or.inl ⟨_, rfl⟩
        | Ctx i => exact Or.inl ⟨_, rfl⟩
        | Ty i => exact Or.inl ⟨_, rfl⟩
        | Subtype i => exact Or.inl ⟨_, rfl⟩
        | Enum i => exact Or.inl ⟨_, rfl⟩

theorem useNamesLoop_shape (c : Ctx) (id : CtxItemsRef)
    (hres : ∀ (nm : CompoundName) (sr : ScopeRef) (b : Bool) rn ds vs tl,
      c.resolve_compound_name nm sr b = .ok (rn, ds, vs, tl) → ds ≠ []) :
    ∀ (names : List CompoundName) (st : CtxScopeState),
      (∃ s, useNamesLoop c id names st = LoopOut.ok s) ∨
      (∃ s, useNamesLoop c id names st = LoopOut.failed s) := by
  intro names
  induction names with
  | nil => intro st; exact Or.inl ⟨st, rfl⟩
  | cons n rest ih =>
    intro st
    rcases useNameStep_shape c id st n hres with ⟨s2, hs2⟩ | ⟨s2, hs2⟩
    · rcases ih s2 with ⟨s3, hs3⟩ | ⟨s3, hs3⟩
      · exact Or.inl ⟨s3, by rw [useNamesLoop, hs2]; exact hs3⟩
      · exact Or.inr ⟨s3, by rw [useNamesLoop, hs2]; exact hs3⟩
    · exact Or.inr ⟨s2, by rw [useNamesLoop, hs2]⟩

theorem ctxScopeItemsLoop_shape (c : Ctx) (id : CtxItemsRef)
    (hres : ∀ (nm : CompoundName) (sr : ScopeRef) (b : Bool) rn ds vs tl,
      c.resolve_compound_name nm sr b = .ok (rn, ds, vs, tl) → ds ≠ []) :
    ∀ (items : List CtxItem) (st : CtxScopeState),
      (∃ s, ctxScopeItemsLoop c id items st = LoopOut.ok s) ∨
      (∃ s, ctxScopeItemsLoop c id items st = LoopOut.failed s) := by
  intro items
  induction items with
  | nil => intro st; exact Or.inl ⟨st, rfl⟩
  | cons it rest ih =>
    intro st
    cases it with
    | LibClause ns =>
      have hred : ctxScopeItemsLoop c id (CtxItem.LibClause ns :: rest) st =
          ctxScopeItemsLoop c id rest st := rfl
      rcases ih st with ⟨s2, hs2⟩ | ⟨s2, hs2⟩
      · exact Or.inl ⟨s2, by rw [hred]; exact hs2⟩
      · exact Or.inr ⟨s2, by rw [hred]; exact hs2⟩
    | UseClause ns =>
      rcases useNamesLoop_shape c id hres ns.value st with ⟨s2, hs2⟩ | ⟨s2, hs2⟩
      · rcases ih s2 with ⟨s3, hs3⟩ | ⟨s3, hs3⟩
        · exact Or.inl ⟨s3, by rw [ctxScopeItemsLoop, hs2]; exact hs3⟩
        · exact Or.inr ⟨s3, by rw [ctxScopeItemsLoop, hs2]; exact hs3⟩
      · exact Or.inr ⟨s2, by rw [ctxScopeItemsLoop, hs2]⟩

theorem make_ctx_items_scope_not_fatal (c : Ctx) (id : CtxItemsRef)
    (p : Option ScopeRef) (tbl : ScopeTable)
    (hres : ∀ (nm : CompoundName) (sr : ScopeRef) (b : Bool) rn ds vs tl,
      c.resolve_compound_name nm sr b = .ok (rn, ds, vs, tl) → ds ≠ []) :
    (make_ctx_items_scope c id p tbl).1.isFatal = false := by
  unfold make_ctx_items_scope
  rcases ctxScopeItemsLoop_shape c id hres (c.ast_ctx_items id)
      ⟨[ScopeRef.CtxItems id], [], []⟩ with ⟨s, hs⟩ | ⟨s, hs⟩ <;>
    rw [hs] <;> rfl

/-- C10 amended: for the library, entity, builtin-package, package, and
architecture variants of `ScopeRef` the scope query returns a Result value
(success or failure) and never panics (assuming the external compound-name
resolver never produces an empty definition list); the context-items variant
panics as unreachable code and the package-instance variant panics as
unimplemented. -/
theorem c10_scope_query_outcomes (c : Ctx) (tbl : ScopeTable)
    (hres : ∀ (nm : CompoundName) (sr : ScopeRef) (b : Bool) rn ds vs tl,
      c.resolve_compound_name nm sr b = .ok (rn, ds, vs, tl) → ds ≠ []) :
    (∀ i : LibRef, (make_scope c (ScopeRef.Lib i) tbl).1.isFatal = false) ∧
    (∀ i : EntityRef,
      (make_scope c (ScopeRef.Entity i) tbl).1.isFatal = false) ∧
    (∀ i : BuiltinPkgRef,
      (make_scope c (ScopeRef.BuiltinPkg i) tbl).1.isFatal = false) ∧
    (∀ i : PkgDeclRef, (make_scope c (ScopeRef.Pkg i) tbl).1.isFatal = false) ∧
    (∀ i : ArchRef, (make_scope c (ScopeRef.Arch i) tbl).1.isFatal = false) ∧
    (∀ i : CtxItemsRef, ∃ msg : String,
      (make_scope c (ScopeRef.CtxItems i) tbl).1 = Outcome.fatal msg) ∧
    (∀ i : PkgInstRef, ∃ msg : String,
      (make_scope c (ScopeRef.PkgInst i) tbl).1 = Outcome.fatal msg) := by
  refine ⟨fun i => rfl, ?_, fun i => rfl, ?_, ?_,
    fun i => ⟨"internal error: entered unreachable code", rfl⟩,
    fun i => ⟨"not implemented", rfl⟩⟩
  · intro i
    show (make_scope_entity c i tbl).1.isFatal = false
    unfold make_scope_entity
    cases c.hir_entity i with
    | error e => rfl
    | ok hir =>
      dsimp only
      have hnf := make_ctx_items_scope_not_fatal c hir.ctx_items none tbl hres
      cases hmk : make_ctx_items_scope c hir.ctx_items none tbl with
      | mk o rest =>
        obtain ⟨tbl2, dgs⟩ := rest
        cases o with
        | ok r => rfl
        | failed => rfl
        | fatal msg =>
          rw [hmk] at hnf
          simp [Outcome.isFatal] at hnf
  · intro i
    show (make_scope_pkg c i tbl).1.isFatal = false
    unfold make_scope_pkg
    cases c.hir_pkg i with
    | error e => rfl
    | ok hir =>
      dsimp only
      cases hp : hir.parent with
      | CtxItems cid =>
        dsimp only
        have hnf := make_ctx_items_scope_not_fatal c cid none tbl hres
        cases hmk : make_ctx_items_scope c cid none tbl with
        | mk o rest =>
          obtain ⟨tbl2, dgs⟩ := rest
          cases o with
          | ok r => rfl
          | failed => rfl
          | fatal msg =>
          rw [hmk] at hnf
          simp [Outcome.isFatal] at hnf
      | Lib x => rfl
      | Entity x => rfl
      | BuiltinPkg x => rfl
      | Pkg x => rfl
      | PkgInst x => rfl
      | Arch x => rfl
  · intro i
    show (make_scope_arch c i tbl).1.isFatal = false
    unfold make_scope_arch
    cases c.hir_arch i with
    | error e => rfl
    | ok hir =>
      dsimp only
      have hnf := make_ctx_items_scope_not_fatal c hir.ctx_items
        (some (ScopeRef.Entity hir.entity)) tbl hres
      cases hmk : make_ctx_items_scope c hir.ctx_items
          (some (ScopeRef.Entity hir.entity)) tbl with
      | mk o rest =>
        obtain ⟨tbl2, dgs⟩ := rest
        cases o with
        | ok r => rfl
        | failed => rfl
        | fatal msg =>
          rw [hmk] at hnf
          simp [Outcome.isFatal] at hnf

/-- C10 witness input: the trivial context, whose resolver always fails and
therefore trivially never returns an empty definition list. -/
theorem c10_scope_query_outcomes_witness :
    (∀ i : LibRef,
      (make_scope defaultCtx (ScopeRef.Lib i) []).1.isFatal = false) ∧
    (∀ i : EntityRef,
      (make_scope defaultCtx (ScopeRef.Entity i) []).1.isFatal = false) ∧
    (∀ i : BuiltinPkgRef,
      (make_scope defaultCtx (ScopeRef.BuiltinPkg i) []).1.isFatal = false) ∧
    (∀ i : PkgDeclRef,
      (make_scope defaultCtx (ScopeRef.Pkg i) []).1.isFatal = false) ∧
    (∀ i : ArchRef,
      (make_scope defaultCtx (ScopeRef.Arch i) []).1.isFatal = false) ∧
    (∀ i : CtxItemsRef, ∃ msg : String,
      (make_scope defaultCtx (ScopeRef.CtxItems i) []).1 = Outcome.fatal msg) ∧
    (∀ i : PkgInstRef, ∃ msg : String,
      (make_scope defaultCtx (ScopeRef.PkgInst i) []).1 = Outcome.fatal msg) :=
  c10_scope_query_outcomes defaultCtx []
    (fun _ _ _ _ _ _ _ h => Except.noConfusion h)
